import Mathlib

/-!
# Checkers rules engine (`src/script.js`)

A shallow embedding of the game logic of `script.js`.

The program keeps its whole state in the DOM and in three module variables.
The embedding keeps exactly the part of the DOM the logic reads or writes:

* the `.piece` elements attached to the cells of the board, as a list of
  `Piece` records.  Each record carries the element identity (`id`), the three
  `dataset` fields (`color`, `row`, `col`) and the cell it is a child of
  (`ci`, `cj`).  Pieces that share a cell appear in the list in child order, so
  `querySelector('.piece:not(.captured)')` on a cell is the first list element
  located in that cell.  (The class `captured` is never added by the program.)
* the cells that carry the class `valid-move`, with their `dataset.moveType`,
  `dataset.capturedRow`, `dataset.capturedCol`, as a list of `Mark` records;
* `currentTurn`, `selectedPiece`, `chainCapturePiece`;
* the callbacks registered by `setTimeout(..., 300)` in `movePiece` that have
  not run yet, oldest first (equal delays run in registration order);
* the victory overlays appended to `document.body` by `showVictory`.

Pixel offsets, CSS classes used only for drawing (`selected`, `explosion`) and
the explosion image are not modelled.  `dataset` values are strings that always
hold decimal integers; they are modelled as `Int`.
-/

namespace Checkers

/-! ## Data model -/

/-- The value of `dataset.color` / `currentTurn`. -/
inductive Color where
  | white
  | black
deriving DecidableEq, Repr

/-- The expression `currentTurn === 'white' ? 'black' : 'white'` (line 212). -/
def Color.other : Color → Color
  | .white => .black
  | .black => .white

/-- The `type` field of a move object. -/
inductive MoveType where
  | move
  | capture
deriving DecidableEq, Repr

/-- A move object pushed by `getValidMoves`: `{row, col, type}` for a step,
`{row, col, type, capturedRow, capturedCol}` for a capture. -/
structure Move where
  row : Int
  col : Int
  type : MoveType
  capturedRow : Option Int
  capturedCol : Option Int
deriving DecidableEq, Repr

/-- A `.piece` element attached to the cell `(ci, cj)` of the board. -/
structure Piece where
  id : Nat
  color : Color
  row : Int
  col : Int
  ci : Int
  cj : Int
deriving DecidableEq, Repr

/-- A JavaScript reference to a `.piece` element (attached or detached).  The
colour is cached in the reference because `dataset.color` is written once, in
`addPiece`, and never again. -/
structure PieceRef where
  id : Nat
  color : Color
deriving DecidableEq, Repr

/-- The reference to an attached piece. -/
def Piece.ref (p : Piece) : PieceRef := ⟨p.id, p.color⟩

/-- A cell carrying the class `valid-move`, with its `dataset` annotation. -/
structure Mark where
  i : Int
  j : Int
  moveType : MoveType
  capturedRow : Option Int
  capturedCol : Option Int
deriving DecidableEq, Repr

/-- The closure passed to `setTimeout` in `movePiece` (lines 191-213): it
captures `movingPiece`, `targetCell` (hence `targetRow`, `targetCol`) and
`wasCapture`. -/
structure Timer where
  movingPiece : PieceRef
  targetRow : Int
  targetCol : Int
  wasCapture : Bool
deriving DecidableEq, Repr

/-- The state of the page. -/
structure State where
  board : List Piece
  marks : List Mark
  currentTurn : Color
  selectedPiece : Option PieceRef
  chainCapturePiece : Option PieceRef
  timers : List Timer
  overlays : List Color
deriving DecidableEq, Repr

/-! ## Board queries -/

/-- `getCell(row, col)` finds a cell exactly when both indices are in `0..7`
(`createBoard` builds those 64 cells and no others). -/
def cellExists (row col : Int) : Bool :=
  decide (0 ≤ row) && decide (row < 8) && decide (0 ≤ col) && decide (col < 8)

/-- `getPieceAt(row, col)` (lines 42-47). -/
def getPieceAt (b : List Piece) (row col : Int) : Option Piece :=
  if cellExists row col then b.find? (fun p => p.ci == row && p.cj == col) else none

/-- `const direction = color === 'white' ? -1 : 1` (line 53). -/
def direction : Color → Int
  | .white => -1
  | .black => 1

/-- The array `forwardMoves` (lines 56-59), as `(dr, dc)` pairs. -/
def forwardMoves (c : Color) : List (Int × Int) :=
  [(direction c, -1), (direction c, 1)]

/-- The array `allDirections` (lines 72-77), as `(dr, dc)` pairs. -/
def allDirections : List (Int × Int) :=
  [(-1, -1), (-1, 1), (1, -1), (1, 1)]

/-- One iteration of the loop of lines 61-70: the step pushed for the offset
`d`, if any. -/
def stepMove (b : List Piece) (row col : Int) (d : Int × Int) : Option Move :=
  let newRow := row + d.1
  let newCol := col + d.2
  if 0 ≤ newRow ∧ newRow < 8 ∧ 0 ≤ newCol ∧ newCol < 8 then
    match getPieceAt b newRow newCol with
    | none => some ⟨newRow, newCol, .move, none, none⟩
    | some _ => none
  else none

/-- One iteration of the loop of lines 79-103: the capture pushed for the
direction `d`, if any. -/
def captureMove (b : List Piece) (color : Color) (row col : Int) (d : Int × Int) :
    Option Move :=
  let midRow := row + d.1
  let midCol := col + d.2
  if 0 ≤ midRow ∧ midRow < 8 ∧ 0 ≤ midCol ∧ midCol < 8 then
    match getPieceAt b midRow midCol with
    | none => none
    | some midPiece =>
      if midPiece.color ≠ color then
        let jumpRow := midRow + d.1
        let jumpCol := midCol + d.2
        if 0 ≤ jumpRow ∧ jumpRow < 8 ∧ 0 ≤ jumpCol ∧ jumpCol < 8 then
          match getPieceAt b jumpRow jumpCol with
          | none => some ⟨jumpRow, jumpCol, .capture, some midRow, some midCol⟩
          | some _ => none
        else none
      else none
  else none

/-- `getValidMoves(piece)` (lines 49-106): the steps in the order of
`forwardMoves`, then the captures in the order of `allDirections`. -/
def getValidMoves (b : List Piece) (piece : Piece) : List Move :=
  (forwardMoves piece.color).filterMap (stepMove b piece.row piece.col)
    ++ allDirections.filterMap (captureMove b piece.color piece.row piece.col)

/-- The test `m => m.type === 'capture'` (lines 112, 130, 203). -/
def Move.isCapture (m : Move) : Bool := m.type == .capture

/-- `canAnyPieceCapture(color)` (lines 108-117). -/
def canAnyPieceCapture (b : List Piece) (color : Color) : Bool :=
  (b.filter (fun p => p.color == color)).any
    (fun piece => (getValidMoves b piece).any Move.isCapture)

/-! ## Selection -/

/-- `clearSelection()` (lines 149-161): forgets the selected piece and removes
the class `valid-move` and the three `dataset` fields from every marked cell. -/
def clearSelection (s : State) : State :=
  { s with selectedPiece := none, marks := [] }

/-- The writes of lines 140-145 on one cell: `moveType` is always written, the
captured square only for a capture (a step leaves those fields as they are). -/
def Mark.write (k : Mark) (m : Move) : Mark :=
  match m.type with
  | .capture =>
    { k with moveType := .capture, capturedRow := m.capturedRow, capturedCol := m.capturedCol }
  | .move => { k with moveType := .move }

/-- The annotation of a cell that had none, after lines 140-145 for the move
`m`. -/
def Mark.ofMove (m : Move) : Mark :=
  Mark.write ⟨m.row, m.col, m.type, none, none⟩ m

/-- The test that the mark `k` sits on the cell `(i, j)`. -/
def Mark.isAt (i j : Int) (k : Mark) : Bool := k.i == i && k.j == j

/-- One iteration of the loop of lines 138-146: the cell of the move gets the
class `valid-move` and its annotation; a cell that is marked already is
overwritten in place. -/
def markCell (marks : List Mark) (m : Move) : List Mark :=
  if marks.any (Mark.isAt m.row m.col) then
    marks.map (fun k => if k.isAt m.row m.col then k.write m else k)
  else
    marks ++ [Mark.ofMove m]

/-- The `dataset` of the cell `(i, j)` when it has the class `valid-move`. -/
def findMark (marks : List Mark) (i j : Int) : Option Mark :=
  marks.find? (Mark.isAt i j)

/-- The value of `availableMoves` in `selectPiece` (lines 129-131). -/
def availableMoves (mustCapture : Bool) (moves : List Move) : List Move :=
  if mustCapture then moves.filter Move.isCapture else moves

/-- `selectPiece(piece)` (lines 119-147). -/
def selectPiece (s : State) (piece : Piece) : State :=
  let s1 := clearSelection s
  if piece.color ≠ s1.currentTurn then s1
  else if s1.chainCapturePiece.any (fun c => piece.id != c.id) then s1
  else
    let mustCapture := canAnyPieceCapture s1.board s1.currentTurn
    let moves := getValidMoves s1.board piece
    let available := availableMoves mustCapture moves
    if available.length = 0 ∧ mustCapture = true then s1
    else
      { s1 with selectedPiece := some piece.ref, marks := available.foldl markCell s1.marks }

/-! ## Moving -/

/-- `capturePiece(piece)` (lines 216-225): `piece.remove()` detaches that one
element from its cell. -/
def capturePiece (b : List Piece) (piece : Piece) : List Piece :=
  b.erase piece

/-- The piece looked up at lines 180-182 from the annotation of the target
cell; `parseInt(undefined)` is `NaN`, for which no cell exists. -/
def capturedPieceOf (b : List Piece) (k : Mark) : Option Piece :=
  match k.capturedRow, k.capturedCol with
  | some r, some c => getPieceAt b r c
  | _, _ => none

/-- The value of `wasCapture` (line 168) for the target cell `(i, j)`. -/
def wasCaptureAt (marks : List Mark) (i j : Int) : Bool :=
  match findMark marks i j with
  | some k => k.moveType == .capture
  | none => false

/-- The board after lines 179-187 of `movePiece` on the target cell `(i, j)`. -/
def boardAfterCapture (b : List Piece) (marks : List Mark) (i j : Int) : List Piece :=
  match findMark marks i j with
  | some k =>
    if k.moveType == .capture then
      match capturedPieceOf b k with
      | some capturedPiece => capturePiece b capturedPiece
      | none => b
    else b
  | none => b

/-- The synchronous part of `movePiece(targetCell)` (lines 163-191) for the
target cell `(i, j)`: the captured piece, if any, is removed at once, and the
relocation is registered as a timer.  With `selectedPiece` null, line 166
throws before anything is written. -/
def movePiece (s : State) (i j : Int) : State :=
  match s.selectedPiece with
  | none => s
  | some movingPiece =>
    { s with
      board := boardAfterCapture s.board s.marks i j
      timers := s.timers ++ [⟨movingPiece, i, j, wasCaptureAt s.marks i j⟩] }

/-- The number `document.querySelectorAll('.piece.<color>').length`. -/
def countColor (b : List Piece) (c : Color) : Nat :=
  (b.filter (fun p => p.color == c)).length

/-- `checkVictory()` (lines 227-240): the winner passed to `showVictory`, if
the function returns `true`; `none` if it returns `false`. -/
def checkVictory (b : List Piece) : Option Color :=
  if countColor b .white = 0 then some .black
  else if countColor b .black = 0 then some .white
  else none

/-- The moving piece as it is after lines 194-196: `dataset.row`, `dataset.col`
and the parent cell are all the target. -/
def Timer.moved (t : Timer) : Piece :=
  ⟨t.movingPiece.id, t.movingPiece.color, t.targetRow, t.targetCol, t.targetRow, t.targetCol⟩

/-- Lines 194-196: `targetCell.appendChild(movingPiece)` detaches the element
from where it is (if it is attached) and makes it the last child of the target
cell. -/
def relocate (b : List Piece) (t : Timer) : List Piece :=
  b.eraseP (fun p => p.id == t.movingPiece.id) ++ [t.moved]

/-- The body of the timer callback of `movePiece` (lines 192-212), run on the
state the page is in when the timer fires. -/
def timerCallback (s : State) (t : Timer) : State :=
  let s1 := clearSelection { s with board := relocate s.board t }
  match checkVictory s1.board with
  | some winner => { s1 with overlays := s1.overlays ++ [winner] }
  | none =>
    if t.wasCapture = true ∧
        ((getValidMoves s1.board t.moved).filter Move.isCapture).length > 0 then
      selectPiece { s1 with chainCapturePiece := some t.movingPiece } t.moved
    else
      { s1 with chainCapturePiece := none, currentTurn := s1.currentTurn.other }

/-- The oldest pending timer fires. -/
def runTimer (s : State) : State :=
  match s.timers with
  | [] => s
  | t :: rest => timerCallback { s with timers := rest } t

/-! ## The click handler and the event loop -/

/-- The click handler (lines 261-275) for a click whose target lies in the
`.piece` element `piece`. -/
def clickPiece (s : State) (piece : Piece) : State :=
  if piece.color = s.currentTurn then selectPiece s piece else s

/-- The click handler (lines 261-275) for a click in the cell `(i, j)` whose
target lies in no piece. -/
def clickCell (s : State) (i j : Int) : State :=
  if (findMark s.marks i j).isSome ∧ s.selectedPiece.isSome then movePiece s i j else s

/-- What the event loop can deliver to the page. -/
inductive Event where
  | piece (id : Nat)
  | cell (i j : Int)
  | timeout
deriving DecidableEq, Repr

/-- One turn of the event loop.  Only attached pieces and existing cells can be
clicked. -/
def step (s : State) : Event → State
  | .piece id =>
    match s.board.find? (fun p => p.id == id) with
    | some p => clickPiece s p
    | none => s
  | .cell i j => if cellExists i j then clickCell s i j else s
  | .timeout => runTimer s

/-- The state after a sequence of events. -/
def run (s : State) (es : List Event) : State := es.foldl step s

/-! ## Set-up -/

/-- `addPiece(cell, color, row, col)` (lines 29-36) on the cell `(row, col)`.
The element identity is the index of the cell in creation order. -/
def addPiece (color : Color) (row col : Nat) : Piece :=
  ⟨8 * row + col, color, row, col, row, col⟩

/-- The body of the inner loop of `createBoard` (lines 18-22). -/
def createCell (i j : Nat) : Option Piece :=
  if i < 3 ∧ (i + j) % 2 ≠ 0 then some (addPiece .black i j)
  else if i > 4 ∧ (i + j) % 2 ≠ 0 then some (addPiece .white i j)
  else none

/-- `createBoard()` (lines 7-27): the pieces it attaches, in document order. -/
def createBoard : List Piece :=
  (List.range 8).flatMap (fun i => (List.range 8).filterMap (createCell i))

/-- The page once the script has run: lines 3-5 and `createBoard()`. -/
def initialState : State :=
  { board := createBoard, marks := [], currentTurn := .white, selectedPiece := none,
    chainCapturePiece := none, timers := [], overlays := [] }

/-- The states the page can be in. -/
def Reachable (s : State) : Prop := ∃ es : List Event, s = run initialState es

/-! ## Well-formed boards -/

/-- No two attached pieces are the same element. -/
abbrev DistinctIds (b : List Piece) : Prop :=
  (b.map Piece.id).Nodup

/-- No two attached pieces are children of the same cell. -/
abbrev OnePerSquare (b : List Piece) : Prop :=
  b.Pairwise (fun a c => ¬(a.ci = c.ci ∧ a.cj = c.cj))

/-- The square `(r, c)` is inside the 8x8 grid and `r + c` is odd. -/
abbrev Playable (r c : Int) : Prop :=
  0 ≤ r ∧ r < 8 ∧ 0 ≤ c ∧ c < 8 ∧ (r + c) % 2 = 1

/-- Every piece has `row`/`col` fields equal to the cell it is a child of, and
that cell is playable; every marked cell and every target of a move in flight
is playable. -/
def OnPlayable (s : State) : Prop :=
  (∀ p ∈ s.board, p.row = p.ci ∧ p.col = p.cj ∧ Playable p.ci p.cj) ∧
    (∀ k ∈ s.marks, Playable k.i k.j) ∧
    ∀ t ∈ s.timers, Playable t.targetRow t.targetCol

/-- What the player does when every move is left to complete before the next
click: a click on a piece, or a click on a cell followed by the timer callback
of the move it may have started. -/
inductive Action where
  | select (id : Nat)
  | move (i j : Int)
deriving DecidableEq, Repr

/-- The effect of one action. -/
def act (s : State) : Action → State
  | .select id => step s (Event.piece id)
  | .move i j => step (step s (Event.cell i j)) Event.timeout

/-- The state after a sequence of actions. -/
def play (s : State) (as : List Action) : State := as.foldl act s

/-- No move is in flight, no two pieces are the same element or share a
square, and every marked cell exists and is empty. -/
def Settled (s : State) : Prop :=
  s.timers = [] ∧ DistinctIds s.board ∧ OnePerSquare s.board ∧
    ∀ k ∈ s.marks, cellExists k.i k.j = true ∧ getPieceAt s.board k.i k.j = none

/-- The colour `c` has no piece on the board, and no piece of that colour is
selected or is the moving piece of a move in flight. -/
def Lost (s : State) (c : Color) : Prop :=
  countColor s.board c = 0 ∧ (∀ t ∈ s.timers, t.movingPiece.color ≠ c) ∧
    ∀ sp, s.selectedPiece = some sp → sp.color ≠ c

/-! ## Example positions -/

/-- The moving white piece of the examples, on `(4, 2)`. -/
def whiteA : Piece := ⟨0, .white, 4, 2, 4, 2⟩

/-- A black piece on `(3, 3)`, diagonally adjacent to `whiteA`. -/
def blackM : Piece := ⟨1, .black, 3, 3, 3, 3⟩

/-- A second white piece, on `(5, 5)`, with no capture. -/
def whiteL : Piece := ⟨2, .white, 5, 5, 5, 5⟩

/-- A black piece far from the action, on `(0, 7)`. -/
def blackFar : Piece := ⟨3, .black, 0, 7, 0, 7⟩

/-- A state with the given board, white to move, nothing selected, no move in
flight. -/
def idle (b : List Piece) : State :=
  { board := b, marks := [], currentTurn := .white, selectedPiece := none,
    chainCapturePiece := none, timers := [], overlays := [] }

/-- Scenario B: `whiteA` can capture `blackM` and land on `(2, 4)`; no further
capture is possible from there. -/
def scenarioB : State := idle [whiteA, blackM, whiteL, blackFar]

/-- The capture of `blackM` by `whiteA`. -/
def moveA : Move := ⟨2, 4, .capture, some 3, some 3⟩

/-! ## Example games

Pieces are named by their identity `8 * row + col` at set-up. -/

/-- The initial position after these clicks: the white piece on `(5, 0)`, its
destination `(4, 1)`, then, before that move has completed, the white piece on
`(5, 2)` and its destination `(4, 1)`; then both moves complete. -/
def stackedStart : State :=
  run initialState [Event.piece 40, Event.cell 4 1, Event.piece 42, Event.cell 4 1,
    Event.timeout, Event.timeout]

/-- Four moves from the start, each completed before the next click: white
`(5, 6)` to `(4, 7)`, black `(2, 7)` to `(3, 6)`, white `(5, 2)` to `(4, 3)`,
black `(2, 5)` to `(3, 4)`. -/
def opening : List Event :=
  [Event.piece 46, Event.cell 4 7, Event.timeout,
    Event.piece 23, Event.cell 3 6, Event.timeout,
    Event.piece 42, Event.cell 4 3, Event.timeout,
    Event.piece 21, Event.cell 3 4, Event.timeout]

/-- The position after `opening`. -/
def afterOpening : State := run initialState opening

/-- After `opening` it is white's turn, nothing is in flight, and the white
piece 42 on `(4, 3)` can jump `(3, 4)` and the white piece 46 on `(4, 7)` can
jump `(3, 6)`, both landing on `(2, 5)`.  Here piece 42 has been clicked: it is
selected and `(2, 5)` is marked as a capture over `(3, 4)`. -/
def selectedMid : State := run initialState (opening ++ [Event.piece 42])

/-- After `opening`, piece 42 is clicked and then its marked destination
`(2, 5)`: the black piece on `(3, 4)` is removed, the relocation of piece 42 is
pending, and piece 42 is still selected with `(2, 5)` still marked. -/
def inFlightMid : State :=
  run initialState (opening ++ [Event.piece 42, Event.cell 2 5])

/-- After `opening`, piece 46 is clicked, then its marked destination `(2, 5)`,
then, before that move has completed, piece 42: now piece 42 is selected, on
`(4, 3)`, with `(2, 5)` marked as a capture over `(3, 4)`. -/
def raceMid : State :=
  run initialState (opening ++ [Event.piece 46, Event.cell 2 5, Event.piece 42])

/-- A whole game, each move completed before the next click, up to the click
that captures the last black piece (the relocation of the capturing piece 49
is still pending). -/
def gameToLastCapture : List Event :=
  [
    Event.piece 40, Event.cell 4 1, Event.timeout,
    Event.piece 19, Event.cell 3 2, Event.timeout,
    Event.piece 40, Event.cell 2 3, Event.timeout,
    Event.piece 10, Event.cell 3 4, Event.timeout,
    Event.piece 44, Event.cell 4 5, Event.timeout,
    Event.piece 23, Event.cell 3 6, Event.timeout,
    Event.piece 44, Event.cell 2 7, Event.timeout,
    Event.piece 21, Event.cell 3 6, Event.timeout,
    Event.piece 44, Event.cell 4 5, Event.timeout,
    Event.piece 44, Event.cell 2 3, Event.timeout,
    Event.piece 12, Event.cell 3 2, Event.timeout,
    Event.piece 49, Event.cell 5 0, Event.timeout,
    Event.piece 5, Event.cell 1 4, Event.timeout,
    Event.piece 42, Event.cell 4 1, Event.timeout,
    Event.piece 17, Event.cell 3 0, Event.timeout,
    Event.piece 42, Event.cell 2 3, Event.timeout,
    Event.piece 42, Event.cell 0 5, Event.timeout,
    Event.piece 42, Event.cell 2 7, Event.timeout,
    Event.piece 17, Event.cell 4 1, Event.timeout,
    Event.piece 49, Event.cell 3 2, Event.timeout,
    Event.piece 7, Event.cell 1 6, Event.timeout,
    Event.piece 42, Event.cell 0 5, Event.timeout,
    Event.piece 3, Event.cell 1 4, Event.timeout,
    Event.piece 42, Event.cell 2 3, Event.timeout,
    Event.piece 1, Event.cell 1 2, Event.timeout,
    Event.piece 42, Event.cell 0 1, Event.timeout,
    Event.piece 8, Event.cell 2 1, Event.timeout,
    Event.piece 49, Event.cell 1 0]

/-- The game after its first 15 moves and a click on piece 42, which is on
`(4, 1)`: piece 42 is selected and `(2, 3)` is marked as a capture over
`(3, 2)`; from `(2, 3)` piece 42 will be able to jump `(1, 4)`. -/
def chainStart : State := run initialState (gameToLastCapture.take 46)

/-- The game at the capture of the last black piece. -/
def lastCapture : State := run initialState gameToLastCapture

/-- The game once that capture has completed: victory has been shown. -/
def wonGame : State := run initialState (gameToLastCapture ++ [Event.timeout])

/-- The game once piece 42 has completed the jump started in `chainStart`:
it is on `(2, 3)`, it is the chain piece, it is selected, and `(0, 5)` is
marked as a capture over `(1, 4)`. -/
def chainHeld : State := run initialState (gameToLastCapture.take 48)

/-- The game after the next two clicks, on piece 42 and on its marked
destination `(0, 5)`: the black piece on `(1, 4)` is removed and the relocation
of piece 42, still on `(2, 3)`, is pending. -/
def chainInFlight : State := run initialState (gameToLastCapture.take 50)

/-- Another whole game, each move completed before the next click, at the end
of which black, to move, has one piece left, on `(5, 0)`, and no move. -/
def gameToStalemate : List Event :=
  [Event.piece 44, Event.cell 4 5, Event.timeout,
    Event.piece 23, Event.cell 3 6, Event.timeout,
    Event.piece 44, Event.cell 2 7, Event.timeout,
    Event.piece 19, Event.cell 3 4, Event.timeout,
    Event.piece 42, Event.cell 4 3, Event.timeout,
    Event.piece 19, Event.cell 5 2, Event.timeout,
    Event.piece 49, Event.cell 4 3, Event.timeout,
    Event.piece 10, Event.cell 2 3, Event.timeout,
    Event.piece 40, Event.cell 4 1, Event.timeout,
    Event.piece 3, Event.cell 1 2, Event.timeout,
    Event.piece 53, Event.cell 5 4, Event.timeout,
    Event.piece 17, Event.cell 3 2, Event.timeout,
    Event.piece 49, Event.cell 2 1, Event.timeout,
    Event.piece 49, Event.cell 0 3, Event.timeout,
    Event.piece 21, Event.cell 3 4, Event.timeout,
    Event.piece 49, Event.cell 2 5, Event.timeout,
    Event.piece 49, Event.cell 4 3, Event.timeout,
    Event.piece 5, Event.cell 1 4, Event.timeout,
    Event.piece 44, Event.cell 0 5, Event.timeout,
    Event.piece 7, Event.cell 1 6, Event.timeout,
    Event.piece 44, Event.cell 2 7, Event.timeout,
    Event.piece 10, Event.cell 3 4, Event.timeout,
    Event.piece 49, Event.cell 2 5, Event.timeout,
    Event.piece 49, Event.cell 0 3, Event.timeout,
    Event.piece 1, Event.cell 1 2, Event.timeout,
    Event.piece 49, Event.cell 2 1, Event.timeout,
    Event.piece 8, Event.cell 3 2, Event.timeout,
    Event.piece 8, Event.cell 5 0, Event.timeout,
    Event.piece 56, Event.cell 6 1, Event.timeout]

/-- The position at the end of `gameToStalemate`. -/
def stalemate : State := run initialState gameToStalemate

/-- The squares `getValidMoves` can offer, in the order it examines them. -/
def candidateSquares (color : Color) (row col : Int) : List (Int × Int) :=
  (forwardMoves color).map (fun d => (row + d.1, col + d.2))
    ++ allDirections.map (fun d => (row + d.1 + d.1, col + d.2 + d.2))

/-- The selected piece, if any, has the colour of `currentTurn`; and if
`chainCapturePiece` is set while both colours have a piece, the chain piece is
on the board, has the colour of `currentTurn` and has a capture. -/
def ChainReady (s : State) : Prop :=
  (∀ sp, s.selectedPiece = some sp → sp.color = s.currentTurn) ∧
    ∀ c, s.chainCapturePiece = some c → checkVictory s.board = none →
      ∃ p ∈ s.board, p.ref = c ∧ p.color = s.currentTurn ∧
        ∃ m ∈ getValidMoves s.board p, m.type = .capture

/-- The first 16 moves of `gameToLastCapture`, as actions: they lead to
`chainHeld`. -/
def chainActions : List Action :=
  [Action.select 40, Action.move 4 1, Action.select 19, Action.move 3 2,
    Action.select 40, Action.move 2 3, Action.select 10, Action.move 3 4,
    Action.select 44, Action.move 4 5, Action.select 23, Action.move 3 6,
    Action.select 44, Action.move 2 7, Action.select 21, Action.move 3 6,
    Action.select 44, Action.move 4 5, Action.select 44, Action.move 2 3,
    Action.select 12, Action.move 3 2, Action.select 49, Action.move 5 0,
    Action.select 5, Action.move 1 4, Action.select 42, Action.move 4 1,
    Action.select 17, Action.move 3 0, Action.select 42, Action.move 2 3]

/-! ## The example positions, written out -/

/-- The state `afterOpening`, written out. -/
def afterOpeningValue : State :=
  { board :=
      [⟨1, .black, 0, 1, 0, 1⟩, ⟨3, .black, 0, 3, 0, 3⟩, ⟨5, .black, 0, 5, 0, 5⟩,
       ⟨7, .black, 0, 7, 0, 7⟩, ⟨8, .black, 1, 0, 1, 0⟩, ⟨10, .black, 1, 2, 1, 2⟩,
       ⟨12, .black, 1, 4, 1, 4⟩, ⟨14, .black, 1, 6, 1, 6⟩, ⟨17, .black, 2, 1, 2, 1⟩,
       ⟨19, .black, 2, 3, 2, 3⟩, ⟨40, .white, 5, 0, 5, 0⟩, ⟨44, .white, 5, 4, 5, 4⟩,
       ⟨49, .white, 6, 1, 6, 1⟩, ⟨51, .white, 6, 3, 6, 3⟩, ⟨53, .white, 6, 5, 6, 5⟩,
       ⟨55, .white, 6, 7, 6, 7⟩, ⟨56, .white, 7, 0, 7, 0⟩, ⟨58, .white, 7, 2, 7, 2⟩,
       ⟨60, .white, 7, 4, 7, 4⟩, ⟨62, .white, 7, 6, 7, 6⟩, ⟨46, .white, 4, 7, 4, 7⟩,
       ⟨23, .black, 3, 6, 3, 6⟩, ⟨42, .white, 4, 3, 4, 3⟩, ⟨21, .black, 3, 4, 3, 4⟩]
    marks := []
    currentTurn := .white
    selectedPiece := none
    chainCapturePiece := none
    timers := []
    overlays := [] }

/-- The state `selectedMid`, written out. -/
def selectedMidValue : State :=
  { board :=
      [⟨1, .black, 0, 1, 0, 1⟩, ⟨3, .black, 0, 3, 0, 3⟩, ⟨5, .black, 0, 5, 0, 5⟩,
       ⟨7, .black, 0, 7, 0, 7⟩, ⟨8, .black, 1, 0, 1, 0⟩, ⟨10, .black, 1, 2, 1, 2⟩,
       ⟨12, .black, 1, 4, 1, 4⟩, ⟨14, .black, 1, 6, 1, 6⟩, ⟨17, .black, 2, 1, 2, 1⟩,
       ⟨19, .black, 2, 3, 2, 3⟩, ⟨40, .white, 5, 0, 5, 0⟩, ⟨44, .white, 5, 4, 5, 4⟩,
       ⟨49, .white, 6, 1, 6, 1⟩, ⟨51, .white, 6, 3, 6, 3⟩, ⟨53, .white, 6, 5, 6, 5⟩,
       ⟨55, .white, 6, 7, 6, 7⟩, ⟨56, .white, 7, 0, 7, 0⟩, ⟨58, .white, 7, 2, 7, 2⟩,
       ⟨60, .white, 7, 4, 7, 4⟩, ⟨62, .white, 7, 6, 7, 6⟩, ⟨46, .white, 4, 7, 4, 7⟩,
       ⟨23, .black, 3, 6, 3, 6⟩, ⟨42, .white, 4, 3, 4, 3⟩, ⟨21, .black, 3, 4, 3, 4⟩]
    marks := [⟨2, 5, .capture, some 3, some 4⟩]
    currentTurn := .white
    selectedPiece := some ⟨42, .white⟩
    chainCapturePiece := none
    timers := []
    overlays := [] }

/-- The state `inFlightMid`, written out. -/
def inFlightMidValue : State :=
  { board :=
      [⟨1, .black, 0, 1, 0, 1⟩, ⟨3, .black, 0, 3, 0, 3⟩, ⟨5, .black, 0, 5, 0, 5⟩,
       ⟨7, .black, 0, 7, 0, 7⟩, ⟨8, .black, 1, 0, 1, 0⟩, ⟨10, .black, 1, 2, 1, 2⟩,
       ⟨12, .black, 1, 4, 1, 4⟩, ⟨14, .black, 1, 6, 1, 6⟩, ⟨17, .black, 2, 1, 2, 1⟩,
       ⟨19, .black, 2, 3, 2, 3⟩, ⟨40, .white, 5, 0, 5, 0⟩, ⟨44, .white, 5, 4, 5, 4⟩,
       ⟨49, .white, 6, 1, 6, 1⟩, ⟨51, .white, 6, 3, 6, 3⟩, ⟨53, .white, 6, 5, 6, 5⟩,
       ⟨55, .white, 6, 7, 6, 7⟩, ⟨56, .white, 7, 0, 7, 0⟩, ⟨58, .white, 7, 2, 7, 2⟩,
       ⟨60, .white, 7, 4, 7, 4⟩, ⟨62, .white, 7, 6, 7, 6⟩, ⟨46, .white, 4, 7, 4, 7⟩,
       ⟨23, .black, 3, 6, 3, 6⟩, ⟨42, .white, 4, 3, 4, 3⟩]
    marks := [⟨2, 5, .capture, some 3, some 4⟩]
    currentTurn := .white
    selectedPiece := some ⟨42, .white⟩
    chainCapturePiece := none
    timers := [⟨⟨42, .white⟩, 2, 5, true⟩]
    overlays := [] }

/-- The state `raceMid`, written out. -/
def raceMidValue : State :=
  { board :=
      [⟨1, .black, 0, 1, 0, 1⟩, ⟨3, .black, 0, 3, 0, 3⟩, ⟨5, .black, 0, 5, 0, 5⟩,
       ⟨7, .black, 0, 7, 0, 7⟩, ⟨8, .black, 1, 0, 1, 0⟩, ⟨10, .black, 1, 2, 1, 2⟩,
       ⟨12, .black, 1, 4, 1, 4⟩, ⟨14, .black, 1, 6, 1, 6⟩, ⟨17, .black, 2, 1, 2, 1⟩,
       ⟨19, .black, 2, 3, 2, 3⟩, ⟨40, .white, 5, 0, 5, 0⟩, ⟨44, .white, 5, 4, 5, 4⟩,
       ⟨49, .white, 6, 1, 6, 1⟩, ⟨51, .white, 6, 3, 6, 3⟩, ⟨53, .white, 6, 5, 6, 5⟩,
       ⟨55, .white, 6, 7, 6, 7⟩, ⟨56, .white, 7, 0, 7, 0⟩, ⟨58, .white, 7, 2, 7, 2⟩,
       ⟨60, .white, 7, 4, 7, 4⟩, ⟨62, .white, 7, 6, 7, 6⟩, ⟨46, .white, 4, 7, 4, 7⟩,
       ⟨42, .white, 4, 3, 4, 3⟩, ⟨21, .black, 3, 4, 3, 4⟩]
    marks := [⟨2, 5, .capture, some 3, some 4⟩]
    currentTurn := .white
    selectedPiece := some ⟨42, .white⟩
    chainCapturePiece := none
    timers := [⟨⟨46, .white⟩, 2, 5, true⟩]
    overlays := [] }

/-- The state `chainStart`, written out. -/
def chainStartValue : State :=
  { board :=
      [⟨1, .black, 0, 1, 0, 1⟩, ⟨3, .black, 0, 3, 0, 3⟩, ⟨7, .black, 0, 7, 0, 7⟩,
       ⟨8, .black, 1, 0, 1, 0⟩, ⟨14, .black, 1, 6, 1, 6⟩, ⟨46, .white, 5, 6, 5, 6⟩,
       ⟨51, .white, 6, 3, 6, 3⟩, ⟨53, .white, 6, 5, 6, 5⟩, ⟨55, .white, 6, 7, 6, 7⟩,
       ⟨56, .white, 7, 0, 7, 0⟩, ⟨58, .white, 7, 2, 7, 2⟩, ⟨60, .white, 7, 4, 7, 4⟩,
       ⟨62, .white, 7, 6, 7, 6⟩, ⟨12, .black, 3, 2, 3, 2⟩, ⟨49, .white, 5, 0, 5, 0⟩,
       ⟨5, .black, 1, 4, 1, 4⟩, ⟨42, .white, 4, 1, 4, 1⟩, ⟨17, .black, 3, 0, 3, 0⟩]
    marks := [⟨2, 3, .capture, some 3, some 2⟩]
    currentTurn := .white
    selectedPiece := some ⟨42, .white⟩
    chainCapturePiece := none
    timers := []
    overlays := [] }

/-- The state `chainHeld`, written out. -/
def chainHeldValue : State :=
  { board :=
      [⟨1, .black, 0, 1, 0, 1⟩, ⟨3, .black, 0, 3, 0, 3⟩, ⟨7, .black, 0, 7, 0, 7⟩,
       ⟨8, .black, 1, 0, 1, 0⟩, ⟨14, .black, 1, 6, 1, 6⟩, ⟨46, .white, 5, 6, 5, 6⟩,
       ⟨51, .white, 6, 3, 6, 3⟩, ⟨53, .white, 6, 5, 6, 5⟩, ⟨55, .white, 6, 7, 6, 7⟩,
       ⟨56, .white, 7, 0, 7, 0⟩, ⟨58, .white, 7, 2, 7, 2⟩, ⟨60, .white, 7, 4, 7, 4⟩,
       ⟨62, .white, 7, 6, 7, 6⟩, ⟨49, .white, 5, 0, 5, 0⟩, ⟨5, .black, 1, 4, 1, 4⟩,
       ⟨17, .black, 3, 0, 3, 0⟩, ⟨42, .white, 2, 3, 2, 3⟩]
    marks := [⟨0, 5, .capture, some 1, some 4⟩]
    currentTurn := .white
    selectedPiece := some ⟨42, .white⟩
    chainCapturePiece := some ⟨42, .white⟩
    timers := []
    overlays := [] }

/-- The state `chainInFlight`, written out. -/
def chainInFlightValue : State :=
  { board :=
      [⟨1, .black, 0, 1, 0, 1⟩, ⟨3, .black, 0, 3, 0, 3⟩, ⟨7, .black, 0, 7, 0, 7⟩,
       ⟨8, .black, 1, 0, 1, 0⟩, ⟨14, .black, 1, 6, 1, 6⟩, ⟨46, .white, 5, 6, 5, 6⟩,
       ⟨51, .white, 6, 3, 6, 3⟩, ⟨53, .white, 6, 5, 6, 5⟩, ⟨55, .white, 6, 7, 6, 7⟩,
       ⟨56, .white, 7, 0, 7, 0⟩, ⟨58, .white, 7, 2, 7, 2⟩, ⟨60, .white, 7, 4, 7, 4⟩,
       ⟨62, .white, 7, 6, 7, 6⟩, ⟨49, .white, 5, 0, 5, 0⟩, ⟨17, .black, 3, 0, 3, 0⟩,
       ⟨42, .white, 2, 3, 2, 3⟩]
    marks := [⟨0, 5, .capture, some 1, some 4⟩]
    currentTurn := .white
    selectedPiece := some ⟨42, .white⟩
    chainCapturePiece := some ⟨42, .white⟩
    timers := [⟨⟨42, .white⟩, 0, 5, true⟩]
    overlays := [] }

/-- The state `lastCapture`, written out. -/
def lastCaptureValue : State :=
  { board :=
      [⟨46, .white, 5, 6, 5, 6⟩, ⟨51, .white, 6, 3, 6, 3⟩, ⟨53, .white, 6, 5, 6, 5⟩,
       ⟨55, .white, 6, 7, 6, 7⟩, ⟨56, .white, 7, 0, 7, 0⟩, ⟨58, .white, 7, 2, 7, 2⟩,
       ⟨60, .white, 7, 4, 7, 4⟩, ⟨62, .white, 7, 6, 7, 6⟩, ⟨49, .white, 3, 2, 3, 2⟩,
       ⟨42, .white, 0, 1, 0, 1⟩]
    marks := [⟨1, 0, .capture, some 2, some 1⟩]
    currentTurn := .white
    selectedPiece := some ⟨49, .white⟩
    chainCapturePiece := none
    timers := [⟨⟨49, .white⟩, 1, 0, true⟩]
    overlays := [] }

/-- The state `wonGame`, written out. -/
def wonGameValue : State :=
  { board :=
      [⟨46, .white, 5, 6, 5, 6⟩, ⟨51, .white, 6, 3, 6, 3⟩, ⟨53, .white, 6, 5, 6, 5⟩,
       ⟨55, .white, 6, 7, 6, 7⟩, ⟨56, .white, 7, 0, 7, 0⟩, ⟨58, .white, 7, 2, 7, 2⟩,
       ⟨60, .white, 7, 4, 7, 4⟩, ⟨62, .white, 7, 6, 7, 6⟩, ⟨42, .white, 0, 1, 0, 1⟩,
       ⟨49, .white, 1, 0, 1, 0⟩]
    marks := []
    currentTurn := .white
    selectedPiece := none
    chainCapturePiece := none
    timers := []
    overlays := [.white] }

/-- The state `stalemate`, written out. -/
def stalemateValue : State :=
  { board :=
      [⟨46, .white, 5, 6, 5, 6⟩, ⟨51, .white, 6, 3, 6, 3⟩, ⟨55, .white, 6, 7, 6, 7⟩,
       ⟨58, .white, 7, 2, 7, 2⟩, ⟨60, .white, 7, 4, 7, 4⟩, ⟨62, .white, 7, 6, 7, 6⟩,
       ⟨53, .white, 5, 4, 5, 4⟩, ⟨44, .white, 2, 7, 2, 7⟩, ⟨8, .black, 5, 0, 5, 0⟩,
       ⟨56, .white, 6, 1, 6, 1⟩]
    marks := []
    currentTurn := .black
    selectedPiece := none
    chainCapturePiece := none
    timers := []
    overlays := [] }

/-- The state `stackedStart`, written out. -/
def stackedStartValue : State :=
  { board :=
      [⟨1, .black, 0, 1, 0, 1⟩, ⟨3, .black, 0, 3, 0, 3⟩, ⟨5, .black, 0, 5, 0, 5⟩,
       ⟨7, .black, 0, 7, 0, 7⟩, ⟨8, .black, 1, 0, 1, 0⟩, ⟨10, .black, 1, 2, 1, 2⟩,
       ⟨12, .black, 1, 4, 1, 4⟩, ⟨14, .black, 1, 6, 1, 6⟩, ⟨17, .black, 2, 1, 2, 1⟩,
       ⟨19, .black, 2, 3, 2, 3⟩, ⟨21, .black, 2, 5, 2, 5⟩, ⟨23, .black, 2, 7, 2, 7⟩,
       ⟨44, .white, 5, 4, 5, 4⟩, ⟨46, .white, 5, 6, 5, 6⟩, ⟨49, .white, 6, 1, 6, 1⟩,
       ⟨51, .white, 6, 3, 6, 3⟩, ⟨53, .white, 6, 5, 6, 5⟩, ⟨55, .white, 6, 7, 6, 7⟩,
       ⟨56, .white, 7, 0, 7, 0⟩, ⟨58, .white, 7, 2, 7, 2⟩, ⟨60, .white, 7, 4, 7, 4⟩,
       ⟨62, .white, 7, 6, 7, 6⟩, ⟨40, .white, 4, 1, 4, 1⟩, ⟨42, .white, 4, 1, 4, 1⟩]
    marks := []
    currentTurn := .white
    selectedPiece := none
    chainCapturePiece := none
    timers := []
    overlays := [] }

/-- Events of an action, in the order the event loop delivers them. -/
def Action.events : Action → List Event
  | .select id => [Event.piece id]
  | .move i j => [Event.cell i j, Event.timeout]

/-! ## The calls of `selectPiece` along a run -/

/-- The call `selectPiece(piece)` that the event `e` makes when the page is in
state `s`, if it makes one: the state in which `selectPiece` is entered and its
argument.  `selectPiece` has two call sites: the click handler (line 268), for
a click on a piece of the colour of `currentTurn`, and the timer callback of
`movePiece` (line 206), when the move was a capture and the moved piece has a
further capture, after `chainCapturePiece = movingPiece`. -/
def selectCall (s : State) : Event → Option (State × Piece)
  | .piece id =>
    match s.board.find? (fun p => p.id == id) with
    | some p => if p.color = s.currentTurn then some (s, p) else none
    | none => none
  | .cell _ _ => none
  | .timeout =>
    match s.timers with
    | [] => none
    | t :: rest =>
      let s1 := clearSelection { { s with timers := rest } with board := relocate s.board t }
      match checkVictory s1.board with
      | some _ => none
      | none =>
        if t.wasCapture = true ∧
            ((getValidMoves s1.board t.moved).filter Move.isCapture).length > 0 then
          some ({ s1 with chainCapturePiece := some t.movingPiece }, t.moved)
        else none

/-- The calls of `selectPiece` made while the events `es` are processed from
the state `s`, oldest first. -/
def selectCalls (s : State) : List Event → List (State × Piece)
  | [] => []
  | e :: es => (selectCall s e).toList ++ selectCalls (step s e) es

/-- The call `selectPiece(piece)` entered in state `s0` succeeds: it reaches
`selectedPiece = piece` (line 135) and marks the destinations. -/
def selectSucceeds (c : State × Piece) : Bool :=
  (selectPiece c.1 c.2).selectedPiece == some c.2.ref

/-- The last successful call of `selectPiece` while the events `es` are
processed from the state `s`. -/
def lastSuccessfulSelect (s : State) (es : List Event) : Option (State × Piece) :=
  ((selectCalls s es).filter selectSucceeds).getLast?

/-! ## A destination clicked twice -/

/-- The initial position after a click on the white piece 40, on `(5, 0)`, and
a click on its marked destination `(4, 1)`: the relocation of piece 40 is
pending, piece 40 is still selected and `(4, 1)` is still marked, as a step. -/
def doubleClick : State := run initialState [Event.piece 40, Event.cell 4 1]

end Checkers

namespace Checkers

/-! ## The example positions, evaluated -/

theorem run_append (s : State) (a b : List Event) :
    run s (a ++ b) = run (run s a) b :=
  List.foldl_append _ _ _ _

theorem afterOpening_eq : afterOpening = afterOpeningValue := by
  decide!

theorem selectedMid_eq : selectedMid = selectedMidValue := by
  have h : selectedMid = run afterOpening [Event.piece 42] := run_append _ _ _
  rw [h, afterOpening_eq]
  decide!

theorem inFlightMid_eq : inFlightMid = inFlightMidValue := by
  have h : inFlightMid = run afterOpening [Event.piece 42, Event.cell 2 5] :=
    run_append _ _ _
  rw [h, afterOpening_eq]
  decide!

theorem raceMid_eq : raceMid = raceMidValue := by
  have h : raceMid = run afterOpening [Event.piece 46, Event.cell 2 5, Event.piece 42] :=
    run_append _ _ _
  rw [h, afterOpening_eq]
  decide!

theorem chainStart_eq : chainStart = chainStartValue := by
  decide!

theorem chainHeld_eq : chainHeld = chainHeldValue := by
  have hl : gameToLastCapture.take 48
      = gameToLastCapture.take 46 ++ [Event.cell 2 3, Event.timeout] := by decide
  have h : chainHeld = run chainStart [Event.cell 2 3, Event.timeout] := by
    unfold chainHeld chainStart
    rw [hl, run_append]
  rw [h, chainStart_eq]
  decide!

theorem chainInFlight_eq : chainInFlight = chainInFlightValue := by
  have hl : gameToLastCapture.take 50
      = gameToLastCapture.take 48 ++ [Event.piece 42, Event.cell 0 5] := by decide
  have h : chainInFlight = run chainHeld [Event.piece 42, Event.cell 0 5] := by
    unfold chainInFlight chainHeld
    rw [hl, run_append]
  rw [h, chainHeld_eq]
  decide!

theorem lastCapture_eq : lastCapture = lastCaptureValue := by
  have h : lastCapture = run chainInFlight (gameToLastCapture.drop 50) := by
    unfold lastCapture chainInFlight
    rw [← run_append, List.take_append_drop]
  rw [h, chainInFlight_eq]
  decide!

theorem wonGame_eq : wonGame = wonGameValue := by
  have h : wonGame = run lastCapture [Event.timeout] := run_append _ _ _
  rw [h, lastCapture_eq]
  decide!

theorem stalemate_eq : stalemate = stalemateValue := by
  decide!

theorem stackedStart_eq : stackedStart = stackedStartValue := by
  decide!

theorem play_eq_run_events (as : List Action) :
    ∀ s : State, play s as = run s (as.flatMap Action.events) := by
  induction as with
  | nil => intro s; rfl
  | cons a as ih =>
    intro s
    have h1 : play s (a :: as) = play (act s a) as := rfl
    have h2 : act s a = run s a.events := by cases a <;> rfl
    rw [h1, ih, h2, List.flatMap_cons, run_append]

theorem play_chainActions : play initialState chainActions = chainHeld := by
  have hl : chainActions.flatMap Action.events = gameToLastCapture.take 48 := by decide
  rw [play_eq_run_events, hl]
  rfl

/-! ## Move generation -/

theorem stepMove_eq_some (b : List Piece) (row col : Int) (d : Int × Int) (m : Move) :
    stepMove b row col d = some m ↔
      (0 ≤ row + d.1 ∧ row + d.1 < 8 ∧ 0 ≤ col + d.2 ∧ col + d.2 < 8) ∧
      getPieceAt b (row + d.1) (col + d.2) = none ∧
      m = ⟨row + d.1, col + d.2, .move, none, none⟩ := by
  unfold stepMove
  by_cases hb : 0 ≤ row + d.1 ∧ row + d.1 < 8 ∧ 0 ≤ col + d.2 ∧ col + d.2 < 8
  · cases hg : getPieceAt b (row + d.1) (col + d.2) with
    | none => simp [hb, hg, eq_comm]
    | some q => simp [hb, hg]
  · simp [hb]

theorem captureMove_eq_some (b : List Piece) (color : Color) (row col : Int)
    (d : Int × Int) (m : Move) :
    captureMove b color row col d = some m ↔
      (0 ≤ row + d.1 ∧ row + d.1 < 8 ∧ 0 ≤ col + d.2 ∧ col + d.2 < 8) ∧
      (∃ q, getPieceAt b (row + d.1) (col + d.2) = some q ∧ q.color ≠ color) ∧
      (0 ≤ row + d.1 + d.1 ∧ row + d.1 + d.1 < 8 ∧
        0 ≤ col + d.2 + d.2 ∧ col + d.2 + d.2 < 8) ∧
      getPieceAt b (row + d.1 + d.1) (col + d.2 + d.2) = none ∧
      m = ⟨row + d.1 + d.1, col + d.2 + d.2, .capture, some (row + d.1), some (col + d.2)⟩ := by
  unfold captureMove
  by_cases hb : 0 ≤ row + d.1 ∧ row + d.1 < 8 ∧ 0 ≤ col + d.2 ∧ col + d.2 < 8
  · cases hg : getPieceAt b (row + d.1) (col + d.2) with
    | none => simp [hb, hg]
    | some q =>
      by_cases hc : q.color = color
      · simp [hb, hg, hc]
      · by_cases hj : 0 ≤ row + d.1 + d.1 ∧ row + d.1 + d.1 < 8 ∧
            0 ≤ col + d.2 + d.2 ∧ col + d.2 + d.2 < 8
        · cases hl : getPieceAt b (row + d.1 + d.1) (col + d.2 + d.2) with
          | none =>
            simp only [hb, hg, hc, hj, hl]
            simp
            exact fun _ => eq_comm
          | some r => simp [hb, hg, hc, hj, hl]
        · simp [hb, hg, hc, hj]
  · simp [hb]

theorem mem_getValidMoves (b : List Piece) (p : Piece) (m : Move) :
    m ∈ getValidMoves b p ↔
      (∃ d ∈ forwardMoves p.color, stepMove b p.row p.col d = some m) ∨
      (∃ d ∈ allDirections, captureMove b p.color p.row p.col d = some m) := by
  simp [getValidMoves, List.mem_append, List.mem_filterMap]

theorem stepMove_type (b : List Piece) (row col : Int) (d : Int × Int) (m : Move)
    (h : stepMove b row col d = some m) : m.type = .move := by
  rw [stepMove_eq_some] at h
  rw [h.2.2]

theorem captureMove_type (b : List Piece) (color : Color) (row col : Int)
    (d : Int × Int) (m : Move) (h : captureMove b color row col d = some m) :
    m.type = .capture := by
  rw [captureMove_eq_some] at h
  rw [h.2.2.2.2]

/-- C1: the moves of type `move` returned by `getValidMoves` are exactly the
squares `(row + d, col - 1)` and `(row + d, col + 1)`, with `d = -1` for a white
piece and `d = +1` for a black one, that lie inside the 8x8 grid and hold no
piece; such a move carries no captured square. -/
theorem getValidMoves_step_iff (b : List Piece) (p : Piece) (m : Move) :
    (m ∈ getValidMoves b p ∧ m.type = .move) ↔
      (m.type = .move ∧ m.capturedRow = none ∧ m.capturedCol = none ∧
        m.row = p.row + (if p.color = .white then -1 else 1) ∧
        (m.col = p.col - 1 ∨ m.col = p.col + 1) ∧
        (0 ≤ m.row ∧ m.row < 8 ∧ 0 ≤ m.col ∧ m.col < 8) ∧
        getPieceAt b m.row m.col = none) := by
  have hdir : direction p.color = (if p.color = .white then -1 else 1) := by
    cases p.color <;> simp [direction]
  rw [mem_getValidMoves]
  constructor
  · rintro ⟨h | ⟨d, _, hd⟩, hty⟩
    · obtain ⟨d, hd, hs⟩ := h
      rw [stepMove_eq_some] at hs
      obtain ⟨hb, hg, rfl⟩ := hs
      simp only [forwardMoves, List.mem_cons, List.mem_singleton, List.not_mem_nil,
        or_false] at hd
      rcases hd with rfl | rfl
      · exact ⟨rfl, rfl, rfl, by simp [hdir], Or.inl (by simp; omega), hb, hg⟩
      · exact ⟨rfl, rfl, rfl, by simp [hdir], Or.inr rfl, hb, hg⟩
    · rw [captureMove_type b _ _ _ d m hd] at hty
      cases hty
  · rintro ⟨hty, hcr, hcc, hrow, hcol, hb, hg⟩
    refine ⟨Or.inl ?_, hty⟩
    obtain ⟨r, c, t, cr, cc⟩ := m
    simp only at hty hcr hcc hrow hcol hb hg
    subst hty hcr hcc hrow
    rcases hcol with rfl | rfl
    · refine ⟨(direction p.color, -1), by simp [forwardMoves], ?_⟩
      rw [stepMove_eq_some]
      simp only [hdir]
      exact ⟨hb, hg, by simp [sub_eq_add_neg]⟩
    · refine ⟨(direction p.color, 1), by simp [forwardMoves], ?_⟩
      rw [stepMove_eq_some]
      simp only [hdir]
      exact ⟨hb, hg, trivial⟩

/-- C2: `getValidMoves` returns a move of type `capture` exactly for each of
the four diagonal directions `(dr, dc)` such that `mid = p + (dr, dc)` is in
bounds and holds a piece of the opposite colour and `land = mid + (dr, dc)` is
in bounds and holds no piece; the move has destination `land` and captured
square `mid`, whatever the colour of the piece. -/
theorem getValidMoves_capture_iff (b : List Piece) (p : Piece) (m : Move) :
    (m ∈ getValidMoves b p ∧ m.type = .capture) ↔
      ∃ dr dc : Int, (dr = -1 ∨ dr = 1) ∧ (dc = -1 ∨ dc = 1) ∧
        (0 ≤ p.row + dr ∧ p.row + dr < 8 ∧ 0 ≤ p.col + dc ∧ p.col + dc < 8) ∧
        (∃ q, getPieceAt b (p.row + dr) (p.col + dc) = some q ∧ q.color ≠ p.color) ∧
        (0 ≤ p.row + dr + dr ∧ p.row + dr + dr < 8 ∧
          0 ≤ p.col + dc + dc ∧ p.col + dc + dc < 8) ∧
        getPieceAt b (p.row + dr + dr) (p.col + dc + dc) = none ∧
        m = ⟨p.row + dr + dr, p.col + dc + dc, .capture,
              some (p.row + dr), some (p.col + dc)⟩ := by
  rw [mem_getValidMoves]
  constructor
  · rintro ⟨⟨d, _, hd⟩ | ⟨d, hd, hc⟩, hty⟩
    · rw [stepMove_type b _ _ d m hd] at hty
      cases hty
    · rw [captureMove_eq_some] at hc
      refine ⟨d.1, d.2, ?_, ?_, hc⟩
      · simp only [allDirections, List.mem_cons, List.mem_singleton, List.not_mem_nil,
          or_false] at hd
        rcases hd with rfl | rfl | rfl | rfl <;> simp
      · simp only [allDirections, List.mem_cons, List.mem_singleton, List.not_mem_nil,
          or_false] at hd
        rcases hd with rfl | rfl | rfl | rfl <;> simp
  · rintro ⟨dr, dc, hdr, hdc, h⟩
    have hm : m.type = .capture := by rw [h.2.2.2.2]
    refine ⟨Or.inr ⟨(dr, dc), ?_, ?_⟩, hm⟩
    · rcases hdr with rfl | rfl <;> rcases hdc with rfl | rfl <;> simp [allDirections]
    · rw [captureMove_eq_some]
      exact h

/-- C3: `canAnyPieceCapture(color)` is true exactly when some piece of that
colour on the board has a move of type `capture` in `getValidMoves`. -/
theorem canAnyPieceCapture_iff (b : List Piece) (color : Color) :
    canAnyPieceCapture b color = true ↔
      ∃ p ∈ b, p.color = color ∧ ∃ m ∈ getValidMoves b p, m.type = .capture := by
  simp [canAnyPieceCapture, List.any_eq_true, List.mem_filter, Move.isCapture, and_assoc]

/-! ## Selection -/

theorem selectPiece_cases (s : State) (piece : Piece) :
    selectPiece s piece = clearSelection s ∨
      selectPiece s piece =
        { clearSelection s with
          selectedPiece := some piece.ref
          marks := (availableMoves (canAnyPieceCapture s.board s.currentTurn)
            (getValidMoves s.board piece)).foldl markCell [] } := by
  unfold selectPiece
  simp only [clearSelection]
  split
  · exact Or.inl rfl
  · split
    · exact Or.inl rfl
    · split
      · exact Or.inl rfl
      · exact Or.inr rfl

theorem selectPiece_board (s : State) (piece : Piece) :
    (selectPiece s piece).board = s.board := by
  rcases selectPiece_cases s piece with h | h <;> rw [h] <;> rfl

theorem selectPiece_currentTurn (s : State) (piece : Piece) :
    (selectPiece s piece).currentTurn = s.currentTurn := by
  rcases selectPiece_cases s piece with h | h <;> rw [h] <;> rfl

theorem selectPiece_chainCapturePiece (s : State) (piece : Piece) :
    (selectPiece s piece).chainCapturePiece = s.chainCapturePiece := by
  rcases selectPiece_cases s piece with h | h <;> rw [h] <;> rfl

theorem selectPiece_timers (s : State) (piece : Piece) :
    (selectPiece s piece).timers = s.timers := by
  rcases selectPiece_cases s piece with h | h <;> rw [h] <;> rfl

theorem selectPiece_overlays (s : State) (piece : Piece) :
    (selectPiece s piece).overlays = s.overlays := by
  rcases selectPiece_cases s piece with h | h <;> rw [h] <;> rfl

theorem availableMoves_forced_nil (b : List Piece) (piece : Piece)
    (hno : ∀ m ∈ getValidMoves b piece, m.type ≠ .capture) :
    availableMoves true (getValidMoves b piece) = [] := by
  simp only [availableMoves, if_true, List.filter_eq_nil_iff]
  intro m hm
  simpa [Move.isCapture] using hno m hm

theorem selectPiece_eq_clear_of_forced (s : State) (piece : Piece)
    (hcap : canAnyPieceCapture s.board s.currentTurn = true)
    (hno : ∀ m ∈ getValidMoves s.board piece, m.type ≠ .capture) :
    selectPiece s piece = clearSelection s := by
  unfold selectPiece
  simp only [clearSelection, hcap, availableMoves_forced_nil s.board piece hno]
  simp

/-- C4 (forced capture): when `canAnyPieceCapture(currentTurn)` is true,
`selectPiece` called on a piece whose `getValidMoves` contains no capture (a
piece of the current colour in particular) does not select it: afterwards
`selectedPiece` is null (hence not that piece) and no cell is marked as a valid
move. -/
theorem selectPiece_forced_capture (s : State) (piece : Piece)
    (hcap : canAnyPieceCapture s.board s.currentTurn = true)
    (hno : ∀ m ∈ getValidMoves s.board piece, m.type ≠ .capture) :
    (selectPiece s piece).selectedPiece = none ∧
      (selectPiece s piece).selectedPiece ≠ some piece.ref ∧
      (selectPiece s piece).marks = [] ∧
      ∀ i j, findMark (selectPiece s piece).marks i j = none := by
  rw [selectPiece_eq_clear_of_forced s piece hcap hno]
  simp [clearSelection, findMark]

/-- Witness for C4 in the example game: after `opening` white has a capture
(piece 42), the white piece 40 on `(5, 0)` has none, and selecting piece 40 is
refused. -/
theorem selectPiece_forced_capture_witness :
    canAnyPieceCapture afterOpening.board afterOpening.currentTurn = true ∧
      afterOpening.currentTurn = .white ∧
      (selectPiece afterOpening ⟨40, .white, 5, 0, 5, 0⟩).selectedPiece = none ∧
      (selectPiece afterOpening ⟨40, .white, 5, 0, 5, 0⟩).marks = [] :=
  have h := selectPiece_forced_capture afterOpening ⟨40, .white, 5, 0, 5, 0⟩
    (by rw [afterOpening_eq]; decide!) (by rw [afterOpening_eq]; decide!)
  ⟨(by rw [afterOpening_eq]; decide!), (by rw [afterOpening_eq]; decide!), h.1, h.2.2.1⟩

/-! ## Completion of a move -/

theorem timerCallback_board (s : State) (t : Timer) :
    (timerCallback s t).board = relocate s.board t := by
  unfold timerCallback
  simp only [clearSelection]
  split
  · rfl
  · split
    · rw [selectPiece_board]
    · rfl

theorem movePiece_timers (s : State) (i j : Int) (sp : PieceRef) (k : Mark)
    (hsel : s.selectedPiece = some sp) (hmark : findMark s.marks i j = some k) :
    (movePiece s i j).timers = s.timers ++ [⟨sp, i, j, k.moveType == .capture⟩] := by
  simp [movePiece, hsel, wasCaptureAt, hmark]

theorem hasCapture_iff (l : List Move) :
    (l.filter Move.isCapture).length > 0 ↔ ∃ m ∈ l, m.type = .capture := by
  rw [gt_iff_lt, List.length_pos, ne_eq, List.filter_eq_nil_iff]
  simp [Move.isCapture]

theorem runTimer_movePiece (s : State) (i j : Int) (sp : PieceRef)
    (hidle : s.timers = []) (hsel : s.selectedPiece = some sp) :
    runTimer (movePiece s i j) =
      timerCallback { s with board := boardAfterCapture s.board s.marks i j }
        ⟨sp, i, j, wasCaptureAt s.marks i j⟩ := by
  simp only [movePiece, hsel, hidle, runTimer, List.nil_append]

/-- The callback of a move, taken alone: in a state with a selected piece `sp`
and a marked destination `(i, j)`, `movePiece` registers a callback; when that
callback runs without ending the game, in whatever state `s2` the page is
then, it compares with `s2` as follows: if the move was a capture and the moved
piece has a capture from its new square, `currentTurn` is the one of `s2` and
`chainCapturePiece` is the moved piece; in every other case `currentTurn` is
the other colour than in `s2` and `chainCapturePiece` is null.  Nothing is said
here of the state in which `movePiece` was called. -/
theorem movePiece_chain_or_flip (s : State) (i j : Int) (sp : PieceRef) (k : Mark)
    (hsel : s.selectedPiece = some sp) (hmark : findMark s.marks i j = some k)
    (s2 : State)
    (hgo : checkVictory (timerCallback s2 ⟨sp, i, j, k.moveType == .capture⟩).board = none) :
    (movePiece s i j).timers = s.timers ++ [⟨sp, i, j, k.moveType == .capture⟩] ∧
    ((k.moveType = .capture ∧
        (∃ m ∈ getValidMoves (timerCallback s2 ⟨sp, i, j, k.moveType == .capture⟩).board
            ⟨sp.id, sp.color, i, j, i, j⟩, m.type = .capture) →
      (timerCallback s2 ⟨sp, i, j, k.moveType == .capture⟩).currentTurn = s2.currentTurn ∧
      (timerCallback s2 ⟨sp, i, j, k.moveType == .capture⟩).chainCapturePiece = some sp) ∧
     (¬(k.moveType = .capture ∧
        (∃ m ∈ getValidMoves (timerCallback s2 ⟨sp, i, j, k.moveType == .capture⟩).board
            ⟨sp.id, sp.color, i, j, i, j⟩, m.type = .capture)) →
      (timerCallback s2 ⟨sp, i, j, k.moveType == .capture⟩).currentTurn
          = s2.currentTurn.other ∧
      (timerCallback s2 ⟨sp, i, j, k.moveType == .capture⟩).chainCapturePiece = none)) := by
  refine ⟨movePiece_timers s i j sp k hsel hmark, ?_⟩
  rw [timerCallback_board] at hgo ⊢
  generalize ht : (⟨sp, i, j, k.moveType == .capture⟩ : Timer) = t at hgo ⊢
  have hmoved : (⟨sp.id, sp.color, i, j, i, j⟩ : Piece) = t.moved := by
    subst ht; rfl
  have hwas : t.wasCapture = true ↔ k.moveType = .capture := by
    subst ht; simp
  have hmp : t.movingPiece = sp := by subst ht; rfl
  rw [hmoved, ← hwas, ← hasCapture_iff]
  unfold timerCallback
  simp only [clearSelection, hgo]
  constructor
  · intro h
    rw [if_pos h, selectPiece_currentTurn, selectPiece_chainCapturePiece, hmp]
    exact ⟨rfl, rfl⟩
  · intro h
    rw [if_neg h]
    exact ⟨rfl, rfl⟩

/-- Example in the example game: in `chainStart` piece 42, selected, jumps
`(3, 2)` to `(2, 3)`, from where it can jump `(1, 4)`; when the move completes
it is still white's turn and piece 42 is the chain piece. -/
theorem movePiece_chain_or_flip_witness :
    chainStart.selectedPiece = some ⟨42, .white⟩ ∧
      findMark chainStart.marks 2 3 = some ⟨2, 3, .capture, some 3, some 2⟩ ∧
      chainStart.timers = [] ∧
      chainStart.currentTurn = .white ∧
      (runTimer (movePiece chainStart 2 3)).currentTurn = .white ∧
      (runTimer (movePiece chainStart 2 3)).chainCapturePiece = some ⟨42, .white⟩ := by
  have h := movePiece_chain_or_flip chainStart 2 3 ⟨42, .white⟩
    ⟨2, 3, .capture, some 3, some 2⟩ (by rw [chainStart_eq]; decide!)
      (by rw [chainStart_eq]; decide!)
    { movePiece chainStart 2 3 with timers := [] } (by rw [chainStart_eq]; decide!)
  have h2 := h.2.1 ⟨rfl, (by rw [chainStart_eq]; decide!)⟩
  have hrun : runTimer (movePiece chainStart 2 3) =
      timerCallback { movePiece chainStart 2 3 with timers := [] }
        ⟨⟨42, .white⟩, 2, 3, (⟨2, 3, .capture, some 3, some 2⟩ : Mark).moveType == .capture⟩ := by
    rw [chainStart_eq]; decide!
  refine ⟨(by rw [chainStart_eq]; decide!), (by rw [chainStart_eq]; decide!),
    (by rw [chainStart_eq]; decide!), (by rw [chainStart_eq]; decide!), ?_, ?_⟩
  · rw [hrun, h2.1]
    rw [chainStart_eq]; decide!
  · rw [hrun]
    exact h2.2

/-- A move that completes before any other event: in a state with no move in
flight, a selected piece `sp` and a marked destination `(i, j)`, when the
callback registered by `movePiece` runs next without ending the game, then: if
the move was a capture and the moved piece has a capture from its new square,
`currentTurn` is the same as before the move and `chainCapturePiece` is the
moved piece; in every other case `currentTurn` is the other colour and
`chainCapturePiece` is null. -/
theorem movePiece_completed_turn (s : State) (i j : Int) (sp : PieceRef) (k : Mark)
    (hidle : s.timers = []) (hsel : s.selectedPiece = some sp)
    (hmark : findMark s.marks i j = some k)
    (hgo : checkVictory (runTimer (movePiece s i j)).board = none) :
    ((k.moveType = .capture ∧
        (∃ m ∈ getValidMoves (runTimer (movePiece s i j)).board
            ⟨sp.id, sp.color, i, j, i, j⟩, m.type = .capture) →
      (runTimer (movePiece s i j)).currentTurn = s.currentTurn ∧
      (runTimer (movePiece s i j)).chainCapturePiece = some sp) ∧
     (¬(k.moveType = .capture ∧
        (∃ m ∈ getValidMoves (runTimer (movePiece s i j)).board
            ⟨sp.id, sp.color, i, j, i, j⟩, m.type = .capture)) →
      (runTimer (movePiece s i j)).currentTurn = s.currentTurn.other ∧
      (runTimer (movePiece s i j)).chainCapturePiece = none)) := by
  have hw : wasCaptureAt s.marks i j = (k.moveType == .capture) := by
    simp [wasCaptureAt, hmark]
  have hrun := runTimer_movePiece s i j sp hidle hsel
  rw [hw] at hrun
  rw [hrun] at hgo ⊢
  exact (movePiece_chain_or_flip s i j sp k hsel hmark _ hgo).2

/-- C5 (chain continuation) fails on the code: `doubleClick` is reached from
the board built by `createBoard` by two clicks; in it the white piece 40 is
selected, `(4, 1)` is a marked destination, of a plain step, and it is white's
turn.  A click on `(4, 1)` is accepted and applied by `movePiece`; two
callbacks are then pending.  After the first it is black's turn; once the
second, the one this `movePiece` registered, has run, the game has not ended
and `chainCapturePiece` is null, but `currentTurn` is white, as before the
move: it has not flipped to the other colour. -/
theorem doubleClick_turn_not_flipped :
    Reachable doubleClick ∧
      doubleClick.selectedPiece = some ⟨40, .white⟩ ∧
      findMark doubleClick.marks 4 1 = some ⟨4, 1, .move, none, none⟩ ∧
      doubleClick.currentTurn = .white ∧
      step doubleClick (Event.cell 4 1) = movePiece doubleClick 4 1 ∧
      (movePiece doubleClick 4 1).timers
        = [⟨⟨40, .white⟩, 4, 1, false⟩, ⟨⟨40, .white⟩, 4, 1, false⟩] ∧
      (run (movePiece doubleClick 4 1) [Event.timeout]).currentTurn = .black ∧
      (run (movePiece doubleClick 4 1) [Event.timeout, Event.timeout]).timers = [] ∧
      (run (movePiece doubleClick 4 1) [Event.timeout, Event.timeout]).overlays = [] ∧
      checkVictory (run (movePiece doubleClick 4 1) [Event.timeout, Event.timeout]).board
        = none ∧
      (run (movePiece doubleClick 4 1) [Event.timeout, Event.timeout]).chainCapturePiece
        = none ∧
      (run (movePiece doubleClick 4 1) [Event.timeout, Event.timeout]).currentTurn
        = .white := by
  refine ⟨⟨_, rfl⟩, ?_⟩
  decide!

/-! ## Piece counts -/

theorem countColor_eq_countP (b : List Piece) (c : Color) :
    countColor b c = b.countP (fun p => p.color == c) := by
  rw [countColor, List.countP_eq_length_filter]

theorem countColor_erase (b : List Piece) (q : Piece) (c : Color) (hq : q ∈ b) :
    countColor (b.erase q) c + (if q.color = c then 1 else 0) = countColor b c := by
  rw [countColor_eq_countP, countColor_eq_countP,
    (List.perm_cons_erase hq).countP_eq, List.countP_cons]
  simp

theorem countColor_append_singleton (b : List Piece) (q : Piece) (c : Color) :
    countColor (b ++ [q]) c = countColor b c + (if q.color = c then 1 else 0) := by
  rw [countColor_eq_countP, countColor_eq_countP, List.countP_append, List.countP_cons]
  simp

theorem eraseP_id_eq_erase (b : List Piece) (p : Piece)
    (hids : (b.map Piece.id).Nodup) (hp : p ∈ b) :
    b.eraseP (fun a => a.id == p.id) = b.erase p := by
  induction b with
  | nil => cases hp
  | cons a l ih =>
    rw [List.map_cons, List.nodup_cons] at hids
    by_cases hap : a = p
    · subst hap
      simp
    · have hpl : p ∈ l := by
        rcases List.mem_cons.1 hp with h | h
        · exact absurd h.symm hap
        · exact h
      have hid : a.id ≠ p.id := by
        intro h
        exact hids.1 (h ▸ List.mem_map_of_mem Piece.id hpl)
      rw [List.eraseP_cons_of_neg (by simpa using hid), ih hids.2 hpl,
        List.erase_cons_tail (by simpa using hap)]

theorem relocate_eq (b : List Piece) (p : Piece) (t : Timer)
    (hids : (b.map Piece.id).Nodup) (hp : p ∈ b) (ht : t.movingPiece = p.ref) :
    relocate b t = b.erase p ++ [t.moved] := by
  rw [relocate, ht]
  exact congrArg (· ++ [t.moved]) (eraseP_id_eq_erase b p hids hp)

theorem countColor_relocate (b : List Piece) (p : Piece) (t : Timer) (c : Color)
    (hids : (b.map Piece.id).Nodup) (hp : p ∈ b) (ht : t.movingPiece = p.ref) :
    countColor (relocate b t) c = countColor b c := by
  rw [relocate_eq b p t hids hp ht, countColor_append_singleton, ← countColor_erase b p c hp]
  simp [Timer.moved, ht, Piece.ref]

theorem mem_of_getPieceAt (b : List Piece) (r c : Int) (q : Piece)
    (h : getPieceAt b r c = some q) : q ∈ b := by
  unfold getPieceAt at h
  split at h
  · exact List.mem_of_find?_eq_some h
  · cases h

theorem Color.ne_iff_eq_other (a b : Color) : a ≠ b ↔ a = b.other := by
  cases a <;> cases b <;> simp [Color.other]

theorem movePiece_board (s : State) (i j : Int) (sp : PieceRef)
    (hsel : s.selectedPiece = some sp) :
    (movePiece s i j).board = boardAfterCapture s.board s.marks i j := by
  simp only [movePiece, hsel]

theorem boardAfterCapture_capture (b : List Piece) (marks : List Mark) (m : Move) (q : Piece)
    (mr mc : Int)
    (hmark : findMark marks m.row m.col = some (Mark.ofMove m))
    (hty : m.type = .capture) (hr : m.capturedRow = some mr) (hc : m.capturedCol = some mc)
    (hq : getPieceAt b mr mc = some q) :
    boardAfterCapture b marks m.row m.col = b.erase q := by
  simp [boardAfterCapture, hmark, Mark.ofMove, Mark.write, hty, capturedPieceOf, hr, hc, hq,
    capturePiece]

theorem boardAfterCapture_step (b : List Piece) (marks : List Mark) (m : Move)
    (hmark : findMark marks m.row m.col = some (Mark.ofMove m))
    (hty : m.type = .move) :
    boardAfterCapture b marks m.row m.col = b := by
  simp [boardAfterCapture, hmark, Mark.ofMove, Mark.write, hty]

theorem capture_shape (b : List Piece) (p : Piece) (m : Move)
    (hm : m ∈ getValidMoves b p) (hty : m.type = .capture) :
    ∃ d : Int × Int, ∃ q,
      getPieceAt b (p.row + d.1) (p.col + d.2) = some q ∧ q.color ≠ p.color ∧
      (0 ≤ p.row + d.1 + d.1 ∧ p.row + d.1 + d.1 < 8 ∧
        0 ≤ p.col + d.2 + d.2 ∧ p.col + d.2 + d.2 < 8) ∧
      getPieceAt b (p.row + d.1 + d.1) (p.col + d.2 + d.2) = none ∧
      m = ⟨p.row + d.1 + d.1, p.col + d.2 + d.2, .capture,
            some (p.row + d.1), some (p.col + d.2)⟩ := by
  rcases (mem_getValidMoves b p m).1 hm with ⟨d, _, hd⟩ | ⟨d, _, hd⟩
  · rw [stepMove_type b _ _ d m hd] at hty
    cases hty
  · obtain ⟨_, ⟨q, hq, hcol⟩, hland, hempty, hmeq⟩ :=
      (captureMove_eq_some b p.color p.row p.col d m).1 hd
    exact ⟨d, q, hq, hcol, hland, hempty, hmeq⟩

theorem capture_of_mem_getValidMoves (b : List Piece) (p : Piece) (m : Move)
    (hm : m ∈ getValidMoves b p) (hty : m.type = .capture) :
    ∃ q mr mc, m.capturedRow = some mr ∧ m.capturedCol = some mc ∧
      getPieceAt b mr mc = some q ∧ q.color ≠ p.color := by
  obtain ⟨d, q, hq, hcol, _, _, rfl⟩ := capture_shape b p m hm hty
  exact ⟨q, _, _, rfl, rfl, hq, hcol⟩

/-- Piece counts for a move that completes before any other event: in a state
with no move in flight, where the selected piece `p` is on the board and `m` is
one of its moves on the current board whose destination carries its mark: if
`m` is a capture, `movePiece` lowers the number of pieces of the opposing
colour by exactly 1 and leaves the number of pieces of the mover's colour
unchanged, at once and still when its callback has run next; if `m` is a step,
both counts are unchanged. -/
theorem movePiece_counts (s : State) (p : Piece) (m : Move)
    (hids : DistinctIds s.board) (hidle : s.timers = [])
    (hp : p ∈ s.board) (hsel : s.selectedPiece = some p.ref)
    (hm : m ∈ getValidMoves s.board p)
    (hmark : findMark s.marks m.row m.col = some (Mark.ofMove m)) :
    (m.type = .capture →
      countColor (movePiece s m.row m.col).board p.color.other + 1
          = countColor s.board p.color.other ∧
      countColor (movePiece s m.row m.col).board p.color = countColor s.board p.color ∧
      countColor (runTimer (movePiece s m.row m.col)).board p.color.other + 1
          = countColor s.board p.color.other ∧
      countColor (runTimer (movePiece s m.row m.col)).board p.color
          = countColor s.board p.color) ∧
    (m.type = .move →
      (∀ c, countColor (movePiece s m.row m.col).board c = countColor s.board c) ∧
      (∀ c, countColor (runTimer (movePiece s m.row m.col)).board c
          = countColor s.board c)) := by
  rw [runTimer_movePiece s _ _ p.ref hidle hsel, timerCallback_board,
    movePiece_board s _ _ p.ref hsel]
  constructor
  · intro hty
    obtain ⟨q, mr, mc, hr, hc, hq, hcol⟩ := capture_of_mem_getValidMoves s.board p m hm hty
    have hqb : q ∈ s.board := mem_of_getPieceAt s.board mr mc q hq
    have hqo : q.color = p.color.other := (Color.ne_iff_eq_other _ _).1 hcol
    have hpq : p ≠ q := fun h => hcol (h ▸ rfl)
    have hp1 : p ∈ s.board.erase q := (List.mem_erase_of_ne hpq).2 hp
    have hids1 : ((s.board.erase q).map Piece.id).Nodup :=
      ((List.erase_sublist q s.board).map Piece.id).nodup hids
    rw [boardAfterCapture_capture s.board s.marks m q mr mc hmark hty hr hc hq]
    have hrel := fun c => countColor_relocate (s.board.erase q) p
      ⟨p.ref, m.row, m.col, wasCaptureAt s.marks m.row m.col⟩ c hids1 hp1 rfl
    simp only [hrel]
    have h1 := countColor_erase s.board q p.color.other hqb
    have h2 := countColor_erase s.board q p.color hqb
    rw [if_pos hqo] at h1
    rw [if_neg hcol] at h2
    exact ⟨h1, h2, h1, h2⟩
  · intro hty
    rw [boardAfterCapture_step s.board s.marks m hmark hty]
    exact ⟨fun _ => rfl, fun c => countColor_relocate s.board p _ c hids hp rfl⟩

/-- Example in the example game: in `selectedMid` piece 42, selected, jumps
the black piece on `(3, 4)`; black goes from 12 pieces to 11, white keeps its
12. -/
theorem movePiece_counts_witness :
    selectedMid.timers = [] ∧
      selectedMid.selectedPiece = some ⟨42, .white⟩ ∧
      (⟨2, 5, .capture, some 3, some 4⟩ : Move)
        ∈ getValidMoves selectedMid.board ⟨42, .white, 4, 3, 4, 3⟩ ∧
      countColor selectedMid.board .black = 12 ∧
      countColor (runTimer (movePiece selectedMid 2 5)).board .black + 1
        = countColor selectedMid.board .black ∧
      countColor (runTimer (movePiece selectedMid 2 5)).board .white
        = countColor selectedMid.board .white :=
  have h := (movePiece_counts selectedMid ⟨42, .white, 4, 3, 4, 3⟩
    ⟨2, 5, .capture, some 3, some 4⟩
    (by rw [selectedMid_eq]; decide!) (by rw [selectedMid_eq]; decide!)
      (by rw [selectedMid_eq]; decide!) (by rw [selectedMid_eq]; decide!)
      (by rw [selectedMid_eq]; decide!) (by rw [selectedMid_eq]; decide!)).1 rfl
  ⟨(by rw [selectedMid_eq]; decide!), (by rw [selectedMid_eq]; decide!),
    (by rw [selectedMid_eq]; decide!), (by rw [selectedMid_eq]; decide!), h.2.2.1, h.2.2.2⟩

/-- C6 (capture removal) fails on the code: `inFlightMid` is reached from the
board built by `createBoard` by clicks and timer callbacks; in it the selected
piece 42 has the marked capture destination `(2, 5)` (captured square
`(3, 4)`), the click handler accepts that destination, and applying the
capture with `movePiece` removes no piece, at once and when everything has
completed: black keeps its 11 pieces. -/
theorem inFlightMid_capture_removes_nothing :
    Reachable inFlightMid ∧
      inFlightMid.selectedPiece = some ⟨42, .white⟩ ∧
      findMark inFlightMid.marks 2 5 = some ⟨2, 5, .capture, some 3, some 4⟩ ∧
      step inFlightMid (Event.cell 2 5) = movePiece inFlightMid 2 5 ∧
      countColor inFlightMid.board .black = 11 ∧
      countColor (movePiece inFlightMid 2 5).board .black = 11 ∧
      countColor (run inFlightMid [Event.cell 2 5, Event.timeout, Event.timeout]).board .black
        = 11 := by
  refine ⟨⟨_, rfl⟩, ?_⟩
  rw [inFlightMid_eq]; decide!

/-! ## Effect of a move on the squares -/

theorem getPieceAt_pos (b : List Piece) (r c : Int) (q : Piece)
    (h : getPieceAt b r c = some q) : q.ci = r ∧ q.cj = c := by
  unfold getPieceAt at h
  split at h
  · simpa using List.find?_some h
  · cases h

theorem getPieceAt_eq_none_of_cell (b : List Piece) (r c : Int)
    (h : ∀ a ∈ b, ¬(a.ci = r ∧ a.cj = c)) : getPieceAt b r c = none := by
  unfold getPieceAt
  split
  · rw [List.find?_eq_none]
    intro a ha
    simpa using h a ha
  · rfl

theorem not_at_of_getPieceAt_none (b : List Piece) (r c : Int) (a : Piece)
    (hcell : cellExists r c = true) (h : getPieceAt b r c = none) (ha : a ∈ b) :
    ¬(a.ci = r ∧ a.cj = c) := by
  unfold getPieceAt at h
  rw [if_pos hcell, List.find?_eq_none] at h
  simpa using h a ha

theorem getPieceAt_cons (a : Piece) (l : List Piece) (r c : Int) :
    getPieceAt (a :: l) r c =
      if cellExists r c = true ∧ a.ci = r ∧ a.cj = c then some a else getPieceAt l r c := by
  unfold getPieceAt
  by_cases hcell : cellExists r c = true
  · by_cases hat : a.ci = r ∧ a.cj = c
    · simp [hcell, hat, List.find?_cons]
    · have : (a.ci == r && a.cj == c) = false := by simpa using hat
      simp [hcell, hat, List.find?_cons, this]
  · simp [hcell]

theorem getPieceAt_erase (b : List Piece) (x : Piece) (r c : Int)
    (hsq : OnePerSquare b) (hx : x ∈ b) :
    getPieceAt (b.erase x) r c =
      if x.ci = r ∧ x.cj = c then none else getPieceAt b r c := by
  induction b with
  | nil => cases hx
  | cons a l ih =>
    rw [OnePerSquare, List.pairwise_cons] at hsq
    by_cases hax : a = x
    · subst hax
      rw [List.erase_cons_head, getPieceAt_cons]
      by_cases hat : a.ci = r ∧ a.cj = c
      · rw [if_pos hat]
        apply getPieceAt_eq_none_of_cell
        intro y hy hyat
        exact hsq.1 y hy ⟨hat.1.trans hyat.1.symm, hat.2.trans hyat.2.symm⟩
      · rw [if_neg hat, if_neg (fun h => hat h.2)]
    · have hxl : x ∈ l := by
        rcases List.mem_cons.1 hx with h | h
        · exact absurd h.symm hax
        · exact h
      rw [List.erase_cons_tail (by simpa using hax), getPieceAt_cons, getPieceAt_cons,
        ih hsq.2 hxl]
      by_cases hat : x.ci = r ∧ x.cj = c
      · have hna : ¬(a.ci = r ∧ a.cj = c) := fun h =>
          hsq.1 x hxl ⟨h.1.trans hat.1.symm, h.2.trans hat.2.symm⟩
        rw [if_pos hat, if_neg (fun h => hna h.2), if_pos hat]
      · rw [if_neg hat, if_neg hat]

theorem getPieceAt_append_singleton (b : List Piece) (y : Piece) (r c : Int) :
    getPieceAt (b ++ [y]) r c =
      (getPieceAt b r c).or
        (if cellExists r c = true ∧ y.ci = r ∧ y.cj = c then some y else none) := by
  unfold getPieceAt
  by_cases hcell : cellExists r c = true
  · by_cases hat : y.ci = r ∧ y.cj = c
    · simp [hcell, hat, List.find?_append, List.find?_cons]
    · have : (y.ci == r && y.cj == c) = false := by simpa using hat
      simp [hcell, hat, List.find?_append, List.find?_cons, this]
  · simp [hcell]

/-- Squares after a capture that completes before any other event: in a state
with no move in flight and at most one piece per square, where the selected
piece `p`, on the board, has on the current board the capture `m` with captured
square `(mr, mc)` and the destination of `m` carries its mark: when the
callback of `movePiece` has run next, the destination holds the moving piece
with `row`/`col` equal to the destination, the square `p` was on and the
captured square are empty, and every other square holds exactly the piece it
held before. -/
theorem movePiece_capture_squares (s : State) (p : Piece) (m : Move) (mr mc : Int)
    (hids : DistinctIds s.board) (hsq : OnePerSquare s.board) (hidle : s.timers = [])
    (hp : p ∈ s.board) (hsel : s.selectedPiece = some p.ref)
    (hm : m ∈ getValidMoves s.board p) (hty : m.type = .capture)
    (hr : m.capturedRow = some mr) (hc : m.capturedCol = some mc)
    (hmark : findMark s.marks m.row m.col = some (Mark.ofMove m)) :
    getPieceAt (runTimer (movePiece s m.row m.col)).board m.row m.col
        = some ⟨p.id, p.color, m.row, m.col, m.row, m.col⟩ ∧
      getPieceAt (runTimer (movePiece s m.row m.col)).board p.ci p.cj = none ∧
      getPieceAt (runTimer (movePiece s m.row m.col)).board mr mc = none ∧
      ∀ r c : Int, ¬(r = m.row ∧ c = m.col) → ¬(r = p.ci ∧ c = p.cj) →
        ¬(r = mr ∧ c = mc) →
        getPieceAt (runTimer (movePiece s m.row m.col)).board r c = getPieceAt s.board r c := by
  obtain ⟨d, q, hq, hcol, hland, hempty, hmeq⟩ := capture_shape s.board p m hm hty
  have hrow : m.row = p.row + d.1 + d.1 := by rw [hmeq]
  have hcl : m.col = p.col + d.2 + d.2 := by rw [hmeq]
  have hmr : mr = p.row + d.1 := by
    rw [hmeq] at hr; exact (Option.some.inj hr).symm
  have hmc : mc = p.col + d.2 := by
    rw [hmeq] at hc; exact (Option.some.inj hc).symm
  rw [← hmr, ← hmc] at hq
  rw [← hrow, ← hcl] at hland hempty
  have hcell : cellExists m.row m.col = true := by
    simp [cellExists, hland]
  have hqb : q ∈ s.board := mem_of_getPieceAt s.board mr mc q hq
  have hqpos := getPieceAt_pos s.board mr mc q hq
  have hpq : p ≠ q := fun h => hcol (h ▸ rfl)
  have hp1 : p ∈ s.board.erase q := (List.mem_erase_of_ne hpq).2 hp
  have hids1 : DistinctIds (s.board.erase q) :=
    ((List.erase_sublist q s.board).map Piece.id).nodup hids
  have hsq1 : OnePerSquare (s.board.erase q) :=
    List.Pairwise.sublist (List.erase_sublist q s.board) hsq
  have hpto : ¬(p.ci = m.row ∧ p.cj = m.col) :=
    not_at_of_getPieceAt_none s.board _ _ p hcell hempty hp
  have hqto : ¬(q.ci = m.row ∧ q.cj = m.col) :=
    not_at_of_getPieceAt_none s.board _ _ q hcell hempty hqb
  rw [runTimer_movePiece s _ _ p.ref hidle hsel, timerCallback_board]
  simp only []
  rw [boardAfterCapture_capture s.board s.marks m q mr mc hmark hty hr hc hq,
    relocate_eq (s.board.erase q) p _ hids1 hp1 rfl]
  simp only [getPieceAt_append_singleton, getPieceAt_erase _ p _ _ hsq1 hp1,
    getPieceAt_erase _ q _ _ hsq hqb, Timer.moved, Piece.ref]
  refine ⟨?_, ?_, ?_, ?_⟩
  · rw [if_neg hpto, if_neg hqto, hempty]
    simp [hcell]
  · have hfrom : ¬(cellExists p.ci p.cj = true ∧ m.row = p.ci ∧ m.col = p.cj) := fun h =>
      hpto ⟨h.2.1.symm, h.2.2.symm⟩
    simp [hfrom]
  · have hmid : ¬(cellExists mr mc = true ∧ m.row = mr ∧ m.col = mc) := fun h =>
      hqto ⟨hqpos.1.trans h.2.1.symm, hqpos.2.trans h.2.2.symm⟩
    rw [if_pos hqpos, if_neg hmid]
    split <;> rfl
  · intro r c hto hfrom hmid
    rw [if_neg (fun h => hfrom ⟨h.1.symm, h.2.symm⟩),
      if_neg (fun h => hmid ⟨(hqpos.1.symm.trans h.1).symm, (hqpos.2.symm.trans h.2).symm⟩),
      if_neg (fun h => hto ⟨h.2.1.symm, h.2.2.symm⟩), Option.or_none]

/-- Example, scenario B: the white piece on `(4, 2)` captures the black piece
on `(3, 3)`; it ends on `(2, 4)`, and `(4, 2)` and `(3, 3)` are empty. -/
theorem movePiece_capture_squares_witness :
    (selectPiece scenarioB whiteA).timers = [] ∧
      (selectPiece scenarioB whiteA).selectedPiece = some whiteA.ref ∧
      moveA ∈ getValidMoves (selectPiece scenarioB whiteA).board whiteA ∧
      getPieceAt (runTimer (movePiece (selectPiece scenarioB whiteA) 2 4)).board 2 4
        = some ⟨0, .white, 2, 4, 2, 4⟩ ∧
      getPieceAt (runTimer (movePiece (selectPiece scenarioB whiteA) 2 4)).board 4 2 = none ∧
      getPieceAt (runTimer (movePiece (selectPiece scenarioB whiteA) 2 4)).board 3 3 = none :=
  have h := movePiece_capture_squares (selectPiece scenarioB whiteA) whiteA moveA 3 3
    (by decide) (by decide) (by decide) (by decide) (by decide) (by decide) (by decide)
    (by decide) (by decide) (by decide)
  ⟨by decide, by decide, by decide, h.1, h.2.1, h.2.2.1⟩

/-- C7 (effect of a capture on the board) fails on the code: `raceMid` is
reached from the board built by `createBoard` by clicks and timer callbacks; in
it the selected piece 42 on `(4, 3)` has a marked capture with destination
`(2, 5)` and captured square `(3, 4)`; the handler accepts the destination, and
once everything has completed `getPieceAt(2, 5)` is piece 46, not the moving
piece, the cell `(2, 5)` has two pieces, and the square `(4, 7)`, which is none
of the three squares of the move, no longer holds the piece it held. -/
theorem raceMid_capture_onto_taken_square :
    Reachable raceMid ∧
      raceMid.selectedPiece = some ⟨42, .white⟩ ∧
      getPieceAt raceMid.board 4 3 = some ⟨42, .white, 4, 3, 4, 3⟩ ∧
      findMark raceMid.marks 2 5 = some ⟨2, 5, .capture, some 3, some 4⟩ ∧
      step raceMid (Event.cell 2 5) = movePiece raceMid 2 5 ∧
      getPieceAt (run raceMid [Event.cell 2 5, Event.timeout, Event.timeout]).board 2 5
        = some ⟨46, .white, 2, 5, 2, 5⟩ ∧
      (run raceMid [Event.cell 2 5, Event.timeout, Event.timeout]).board.filter
          (fun a => a.ci == 2 && a.cj == 5)
        = [⟨46, .white, 2, 5, 2, 5⟩, ⟨42, .white, 2, 5, 2, 5⟩] ∧
      (run raceMid [Event.cell 2 5, Event.timeout, Event.timeout]).timers = [] ∧
      getPieceAt raceMid.board 4 7 = some ⟨46, .white, 4, 7, 4, 7⟩ ∧
      getPieceAt (run raceMid [Event.cell 2 5, Event.timeout, Event.timeout]).board 4 7
        = none := by
  refine ⟨⟨_, rfl⟩, ?_⟩
  rw [raceMid_eq]; decide!

/-! ## Victory -/

theorem countColor_eq_zero_iff (b : List Piece) (c : Color) :
    countColor b c = 0 ↔ ∀ p ∈ b, p.color ≠ c := by
  simp [countColor, List.filter_eq_nil_iff]

theorem mem_relocate (b : List Piece) (t : Timer) (a : Piece) (ha : a ∈ relocate b t) :
    a ∈ b ∨ a = t.moved := by
  rcases List.mem_append.1 ha with h | h
  · exact Or.inl (List.mem_of_mem_eraseP h)
  · exact Or.inr (List.mem_singleton.1 h)

theorem checkVictory_of_lost (b : List Piece) (t : Timer) (c : Color)
    (hb : countColor b c = 0) (ht : t.movingPiece.color ≠ c) :
    countColor (relocate b t) c = 0 ∧ checkVictory (relocate b t) = some c.other := by
  have hzero : countColor (relocate b t) c = 0 := by
    rw [countColor_eq_zero_iff] at hb ⊢
    intro a ha
    rcases mem_relocate b t a ha with h | h
    · exact hb a h
    · rw [h]; exact ht
  have hpos : countColor (relocate b t) t.movingPiece.color ≠ 0 := by
    rw [Ne, countColor_eq_zero_iff]
    intro h
    exact h t.moved (by simp [relocate]) rfl
  refine ⟨hzero, ?_⟩
  unfold checkVictory
  cases c with
  | white => rw [if_pos hzero]; rfl
  | black =>
    have hw : t.movingPiece.color = .white := by
      cases hc : t.movingPiece.color with
      | white => rfl
      | black => exact absurd hc ht
    rw [hw] at hpos
    rw [if_neg hpos, if_pos hzero]; rfl

theorem timerCallback_of_lost (s : State) (t : Timer) (c : Color)
    (hb : countColor s.board c = 0) (ht : t.movingPiece.color ≠ c) :
    timerCallback s t =
      { s with board := relocate s.board t, selectedPiece := none, marks := [],
               overlays := s.overlays ++ [c.other] } := by
  unfold timerCallback
  simp only [clearSelection, (checkVictory_of_lost s.board t c hb ht).2]

theorem runTimer_nil (s : State) (h : s.timers = []) : runTimer s = s := by
  simp only [runTimer, h]

theorem runTimer_cons (s : State) (t : Timer) (rest : List Timer) (h : s.timers = t :: rest) :
    runTimer s = timerCallback { s with timers := rest } t := by
  simp only [runTimer, h]

/-- What one event can change once a colour has lost. -/
theorem step_of_lost (s : State) (c : Color) (e : Event) (h : Lost s c) :
    Lost (step s e) c ∧ (step s e).currentTurn = s.currentTurn ∧
      (step s e).chainCapturePiece = s.chainCapturePiece ∧
      ((step s e).overlays = s.overlays ∨ (step s e).overlays = s.overlays ++ [c.other]) := by
  obtain ⟨hb, htm, hsel⟩ := h
  have hkeep : Lost s c ∧ s.currentTurn = s.currentTurn ∧
      s.chainCapturePiece = s.chainCapturePiece ∧
      (s.overlays = s.overlays ∨ s.overlays = s.overlays ++ [c.other]) :=
    ⟨⟨hb, htm, hsel⟩, rfl, rfl, Or.inl rfl⟩
  cases e with
  | piece id =>
    simp only [step]
    cases hf : s.board.find? (fun p => p.id == id) with
    | none => exact hkeep
    | some p =>
      have hpc : p.color ≠ c :=
        (countColor_eq_zero_iff s.board c).1 hb p (List.mem_of_find?_eq_some hf)
      simp only [clickPiece]
      split
      · rcases selectPiece_cases s p with hs | hs <;> rw [hs]
        · refine ⟨⟨hb, htm, ?_⟩, rfl, rfl, Or.inl rfl⟩
          intro sp hsp
          cases hsp
        · refine ⟨⟨hb, htm, ?_⟩, rfl, rfl, Or.inl rfl⟩
          intro sp hsp
          cases hsp
          exact hpc
      · exact hkeep
  | cell i j =>
    simp only [step, clickCell]
    split
    · split
      · unfold movePiece
        cases hsp : s.selectedPiece with
        | none => exact hkeep
        | some sp =>
          refine ⟨⟨?_, ?_, ?_⟩, rfl, rfl, Or.inl rfl⟩
          · rw [countColor_eq_zero_iff] at hb ⊢
            intro a ha
            apply hb a
            simp only [boardAfterCapture, capturePiece] at ha
            split at ha
            · split at ha
              · split at ha
                · exact List.mem_of_mem_erase ha
                · exact ha
              · exact ha
            · exact ha
          · intro t ht
            rcases List.mem_append.1 ht with h1 | h1
            · exact htm t h1
            · rw [List.mem_singleton.1 h1]
              exact hsel sp hsp
          · intro sp2 hsp2
            exact hsel sp2 (hsp ▸ hsp2)
      · exact hkeep
    · exact hkeep
  | timeout =>
    simp only [step]
    cases htl : s.timers with
    | nil => rw [runTimer_nil s htl]; exact hkeep
    | cons t rest =>
      have ht : t.movingPiece.color ≠ c := htm t (by rw [htl]; exact List.mem_cons_self _ _)
      rw [runTimer_cons s t rest htl, timerCallback_of_lost { s with timers := rest } t c hb ht]
      refine ⟨⟨(checkVictory_of_lost s.board t c hb ht).1, ?_, ?_⟩, rfl, rfl, Or.inr rfl⟩
      · intro t2 ht2
        exact htm t2 (by rw [htl]; exact List.mem_cons_of_mem _ ht2)
      · intro sp hsp
        cases hsp

theorem run_of_lost (c : Color) (es : List Event) :
    ∀ s : State, Lost s c →
      Lost (run s es) c ∧ (run s es).currentTurn = s.currentTurn ∧
        (run s es).chainCapturePiece = s.chainCapturePiece ∧
        ∃ n, (run s es).overlays = s.overlays ++ List.replicate n c.other := by
  induction es with
  | nil => exact fun s h => ⟨h, rfl, rfl, 0, by simp [run]⟩
  | cons e rest ih =>
    intro s h
    obtain ⟨h1, ht1, hc1, ho1⟩ := step_of_lost s c e h
    obtain ⟨h2, ht2, hc2, n, ho2⟩ := ih (step s e) h1
    have hrun : run s (e :: rest) = run (step s e) rest := rfl
    rw [hrun]
    refine ⟨h2, ht2.trans ht1, hc2.trans hc1, ?_⟩
    rcases ho1 with ho1 | ho1
    · exact ⟨n, by rw [ho2, ho1]⟩
    · exact ⟨n + 1, by rw [ho2, ho1, List.append_assoc, List.replicate_succ]; rfl⟩

/-- C8 (victory), as amended: once a colour `c` has no piece on the board and
no piece of that colour is selected or in flight, then after every sequence of
clicks and timer callbacks `c` still has no piece, `currentTurn` and
`chainCapturePiece` are what they were, the only overlays added announce the
other colour as winner, and every move that completes announces that winner
(again).  Nothing is said about selections and moves being refused: the code
has no game-over gate. -/
theorem victory_persists (s : State) (c : Color) (h : Lost s c) (es : List Event) :
    countColor (run s es).board c = 0 ∧
      (run s es).currentTurn = s.currentTurn ∧
      (run s es).chainCapturePiece = s.chainCapturePiece ∧
      (∃ n, (run s es).overlays = s.overlays ++ List.replicate n c.other) ∧
      ∀ t rest, (run s es).timers = t :: rest →
        checkVictory (step (run s es) .timeout).board = some c.other ∧
        (step (run s es) .timeout).overlays = (run s es).overlays ++ [c.other] := by
  obtain ⟨hl, ht, hc, ho⟩ := run_of_lost c es s h
  refine ⟨hl.1, ht, hc, ho, ?_⟩
  intro t rest htl
  have htc : t.movingPiece.color ≠ c := hl.2.1 t (by rw [htl]; exact List.mem_cons_self _ _)
  simp only [step]
  rw [runTimer_cons _ t rest htl,
    timerCallback_of_lost { run s es with timers := rest } t c hl.1 htc]
  exact ⟨(checkVictory_of_lost (run s es).board t c hl.1 htc).2, rfl⟩

/-- Witness for C8 in the example game: after the capture of the last black
piece, whatever white does next, black has no piece and it is still white's
turn. -/
theorem victory_persists_witness :
    Lost lastCapture .black ∧
      countColor (run lastCapture
        [Event.timeout, Event.piece 46, Event.cell 4 5, Event.timeout]).board .black = 0 ∧
      (run lastCapture
        [Event.timeout, Event.piece 46, Event.cell 4 5, Event.timeout]).currentTurn
        = lastCapture.currentTurn :=
  have hsel : lastCapture.selectedPiece = some ⟨49, .white⟩ := by rw [lastCapture_eq]; decide!
  have hl : Lost lastCapture .black :=
    ⟨(by rw [lastCapture_eq]; decide!), (by rw [lastCapture_eq]; decide!), fun sp hsp => by
      rw [← Option.some.inj (hsel.symm.trans hsp)]; decide⟩
  have h := victory_persists lastCapture .black hl
    [Event.timeout, Event.piece 46, Event.cell 4 5, Event.timeout]
  ⟨hl, h.1, h.2.1⟩

/-- Counterexample to C8 as stated: `wonGame` is reached from the initial
board by a game in which every move completes before the next click; in it
black has no piece and white has been announced as winner, once.  Yet a click
on the white piece 46 selects it and marks its destinations, and a click on the
marked cell `(4, 5)` moves it there. -/
theorem victory_counterexample :
    Reachable wonGame ∧
      countColor wonGame.board .black = 0 ∧
      wonGame.overlays = [.white] ∧
      wonGame.timers = [] ∧
      wonGame.selectedPiece = none ∧
      (step wonGame (Event.piece 46)).selectedPiece = some ⟨46, .white⟩ ∧
      findMark (step wonGame (Event.piece 46)).marks 4 5 = some ⟨4, 5, .move, none, none⟩ ∧
      getPieceAt wonGame.board 4 5 = none ∧
      getPieceAt (run wonGame [Event.piece 46, Event.cell 4 5, Event.timeout]).board 4 5
        = some ⟨46, .white, 4, 5, 4, 5⟩ ∧
      (run wonGame [Event.piece 46, Event.cell 4 5, Event.timeout]).board ≠ wonGame.board := by
  refine ⟨⟨_, rfl⟩, ?_⟩
  rw [wonGame_eq]; decide!

/-! ## The board invariant -/

theorem getValidMoves_playable (b : List Piece) (p : Piece) (m : Move)
    (hp : Playable p.row p.col) (hm : m ∈ getValidMoves b p) : Playable m.row m.col := by
  obtain ⟨_, _, _, _, hodd⟩ := hp
  rcases (mem_getValidMoves b p m).1 hm with ⟨d, hd, hs⟩ | ⟨d, hd, hs⟩
  · obtain ⟨hb, _, rfl⟩ := (stepMove_eq_some b p.row p.col d m).1 hs
    simp only [forwardMoves, List.mem_cons, List.mem_singleton, List.not_mem_nil,
      or_false] at hd
    have hdir : direction p.color = -1 ∨ direction p.color = 1 := by
      cases p.color <;> simp [direction]
    rcases hd with rfl | rfl <;> rcases hdir with h | h <;>
      simp only [h] at hb ⊢ <;> exact ⟨hb.1, hb.2.1, hb.2.2.1, hb.2.2.2, by omega⟩
  · obtain ⟨_, _, hb, _, rfl⟩ := (captureMove_eq_some b p.color p.row p.col d m).1 hs
    simp only [allDirections, List.mem_cons, List.mem_singleton, List.not_mem_nil,
      or_false] at hd
    rcases hd with rfl | rfl | rfl | rfl <;>
      exact ⟨hb.1, hb.2.1, hb.2.2.1, hb.2.2.2, by simp only []; omega⟩

theorem markCell_pos (P : Int → Int → Prop) (marks : List Mark) (m : Move)
    (hmarks : ∀ k ∈ marks, P k.i k.j) (hm : P m.row m.col) :
    ∀ k ∈ markCell marks m, P k.i k.j := by
  intro k hk
  unfold markCell at hk
  split at hk
  · obtain ⟨k0, hk0, rfl⟩ := List.mem_map.1 hk
    have h0 := hmarks k0 hk0
    split
    · unfold Mark.write
      split <;> exact h0
    · exact h0
  · rcases List.mem_append.1 hk with h | h
    · exact hmarks k h
    · rw [List.mem_singleton.1 h]
      unfold Mark.ofMove Mark.write
      split <;> exact hm

theorem foldl_markCell_pos (P : Int → Int → Prop) (moves : List Move) :
    ∀ marks : List Mark, (∀ k ∈ marks, P k.i k.j) →
      (∀ m ∈ moves, P m.row m.col) →
      ∀ k ∈ moves.foldl markCell marks, P k.i k.j := by
  induction moves with
  | nil => exact fun marks h _ => h
  | cons m rest ih =>
    intro marks hmarks hmoves
    exact ih (markCell marks m)
      (markCell_pos P marks m hmarks (hmoves m (List.mem_cons_self _ _)))
      (fun m2 h2 => hmoves m2 (List.mem_cons_of_mem _ h2))

/-- Every cell marked by `selectPiece` is the destination of a move of
`getValidMoves(piece)` on the current board. -/
theorem selectPiece_marks (s : State) (piece : Piece) :
    ∀ k ∈ (selectPiece s piece).marks,
      ∃ m ∈ getValidMoves s.board piece, k.i = m.row ∧ k.j = m.col := by
  rcases selectPiece_cases s piece with hs | hs <;> rw [hs]
  · exact fun k hk => absurd hk (List.not_mem_nil k)
  · apply foldl_markCell_pos
      (fun i j => ∃ m ∈ getValidMoves s.board piece, i = m.row ∧ j = m.col) _ []
      (fun k hk => absurd hk (List.not_mem_nil k))
    intro m hm
    refine ⟨m, ?_, rfl, rfl⟩
    unfold availableMoves at hm
    split at hm
    · exact (List.mem_filter.1 hm).1
    · exact hm

theorem selectPiece_onPlayable (s : State) (piece : Piece) (h : OnPlayable s)
    (hp : Playable piece.row piece.col) : OnPlayable (selectPiece s piece) := by
  refine ⟨?_, ?_, ?_⟩
  · rw [selectPiece_board]; exact h.1
  · intro k hk
    obtain ⟨m, hm, hi, hj⟩ := selectPiece_marks s piece k hk
    rw [hi, hj]
    exact getValidMoves_playable s.board piece m hp hm
  · rw [selectPiece_timers]; exact h.2.2

theorem step_onPlayable (s : State) (e : Event) (h : OnPlayable s) :
    OnPlayable (step s e) := by
  cases e with
  | piece id =>
    simp only [step]
    cases hf : s.board.find? (fun p => p.id == id) with
    | none => exact h
    | some p =>
      have hp := h.1 p (List.mem_of_find?_eq_some hf)
      simp only [clickPiece]
      split
      · exact selectPiece_onPlayable s p h (hp.1 ▸ hp.2.1 ▸ hp.2.2)
      · exact h
  | cell i j =>
    simp only [step, clickCell]
    split
    · split
      · rename_i hmk
        obtain ⟨k, hk⟩ := Option.isSome_iff_exists.1 hmk.1
        have hkm : k ∈ s.marks := List.mem_of_find?_eq_some hk
        have hkat : k.i = i ∧ k.j = j := by
          simpa [Mark.isAt] using List.find?_some hk
        have hij : Playable i j := hkat.1 ▸ hkat.2 ▸ h.2.1 k hkm
        unfold movePiece
        cases hsp : s.selectedPiece with
        | none => exact h
        | some sp =>
          refine ⟨?_, h.2.1, ?_⟩
          · intro a ha
            apply h.1 a
            simp only [boardAfterCapture, capturePiece] at ha
            split at ha
            · split at ha
              · split at ha
                · exact List.mem_of_mem_erase ha
                · exact ha
              · exact ha
            · exact ha
          · intro t ht
            rcases List.mem_append.1 ht with h1 | h1
            · exact h.2.2 t h1
            · rw [List.mem_singleton.1 h1]
              exact hij
      · exact h
    · exact h
  | timeout =>
    simp only [step]
    cases htl : s.timers with
    | nil => rw [runTimer_nil s htl]; exact h
    | cons t rest =>
      rw [runTimer_cons s t rest htl]
      have htp : Playable t.targetRow t.targetCol :=
        h.2.2 t (by rw [htl]; exact List.mem_cons_self _ _)
      have h1 : OnPlayable
          (clearSelection { s with board := relocate s.board t, timers := rest }) := by
        refine ⟨?_, fun k hk => absurd hk (List.not_mem_nil k), ?_⟩
        · intro a ha
          rcases mem_relocate s.board t a ha with h2 | h2
          · exact h.1 a h2
          · rw [h2]; exact ⟨rfl, rfl, htp⟩
        · intro t2 ht2
          exact h.2.2 t2 (by rw [htl]; exact List.mem_cons_of_mem _ ht2)
      unfold timerCallback
      simp only []
      split
      · exact ⟨h1.1, h1.2.1, h1.2.2⟩
      · split
        · exact selectPiece_onPlayable _ t.moved ⟨h1.1, h1.2.1, h1.2.2⟩ htp
        · exact ⟨h1.1, h1.2.1, h1.2.2⟩

/-- The part of the board invariant that no interleaving of clicks and timer
callbacks can break: in every reachable state every piece has `row`/`col`
fields equal to the cell it is a child of, and that cell is inside the grid
with `row + col` odd. -/
theorem reachable_onPlayable (s : State) (h : Reachable s) :
    ∀ p ∈ s.board, p.row = p.ci ∧ p.col = p.cj ∧ Playable p.ci p.cj := by
  obtain ⟨es, rfl⟩ := h
  have hinit : OnPlayable initialState :=
    ⟨by decide, fun k hk => absurd hk (List.not_mem_nil k),
      fun t ht => absurd ht (List.not_mem_nil t)⟩
  have hrun : ∀ (es : List Event) (s : State), OnPlayable s → OnPlayable (run s es) := by
    intro es
    induction es with
    | nil => exact fun s h => h
    | cons e rest ih => exact fun s h => ih (step s e) (step_onPlayable s e h)
  exact (hrun es initialState hinit).1


theorem getValidMoves_dest_empty (b : List Piece) (p : Piece) (m : Move)
    (hm : m ∈ getValidMoves b p) :
    cellExists m.row m.col = true ∧ getPieceAt b m.row m.col = none := by
  rcases (mem_getValidMoves b p m).1 hm with ⟨d, _, hs⟩ | ⟨d, _, hs⟩
  · obtain ⟨hb, hg, rfl⟩ := (stepMove_eq_some b p.row p.col d m).1 hs
    exact ⟨by simp [cellExists, hb], hg⟩
  · obtain ⟨_, _, hb, hg, rfl⟩ := (captureMove_eq_some b p.color p.row p.col d m).1 hs
    exact ⟨by simp [cellExists, hb], hg⟩

theorem eraseP_id_ne (x : Nat) (b : List Piece) (hids : DistinctIds b) :
    ∀ a ∈ b.eraseP (fun a => a.id == x), a.id ≠ x := by
  induction b with
  | nil => exact fun a ha => absurd ha (List.not_mem_nil a)
  | cons y l ih =>
    rw [DistinctIds, List.map_cons, List.nodup_cons] at hids
    by_cases hy : y.id = x
    · rw [List.eraseP_cons_of_pos (by simpa using hy)]
      intro a ha hax
      exact hids.1 (hy ▸ hax ▸ List.mem_map_of_mem Piece.id ha)
    · rw [List.eraseP_cons_of_neg (by simpa using hy)]
      intro a ha
      rcases List.mem_cons.1 ha with h | h
      · rw [h]; exact hy
      · exact ih hids.2 a h

theorem relocate_distinctIds (b : List Piece) (t : Timer) (hids : DistinctIds b) :
    DistinctIds (relocate b t) := by
  have hsub : DistinctIds (b.eraseP (fun a => a.id == t.movingPiece.id)) :=
    ((List.eraseP_sublist b).map Piece.id).nodup hids
  rw [DistinctIds, relocate, List.map_append, List.nodup_append]
  refine ⟨hsub, List.nodup_singleton _, ?_⟩
  intro x hx hx2
  obtain ⟨a, ha, rfl⟩ := List.mem_map.1 hx
  rw [List.map_singleton, List.mem_singleton] at hx2
  exact eraseP_id_ne t.movingPiece.id b hids a ha hx2

theorem boardAfterCapture_sublist (b : List Piece) (marks : List Mark) (i j : Int) :
    List.Sublist (boardAfterCapture b marks i j) b := by
  unfold boardAfterCapture capturePiece
  split
  · split
    · split
      · exact List.erase_sublist _ _
      · exact List.Sublist.refl _
    · exact List.Sublist.refl _
  · exact List.Sublist.refl _

theorem relocate_onePerSquare (b b1 : List Piece) (t : Timer) (hsq : OnePerSquare b)
    (hcell : cellExists t.targetRow t.targetCol = true)
    (hempty : getPieceAt b t.targetRow t.targetCol = none) (hsub : List.Sublist b1 b) :
    OnePerSquare (relocate b1 t) := by
  have hsub2 : List.Sublist (b1.eraseP (fun a => a.id == t.movingPiece.id)) b :=
    (List.eraseP_sublist b1).trans hsub
  rw [OnePerSquare, relocate, List.pairwise_append]
  refine ⟨List.Pairwise.sublist hsub2 hsq, List.pairwise_singleton _ _, ?_⟩
  intro a ha c hc
  rw [List.mem_singleton.1 hc]
  exact not_at_of_getPieceAt_none b _ _ a hcell hempty (hsub2.subset ha)

theorem step_distinctIds (s : State) (e : Event) (h : DistinctIds s.board) :
    DistinctIds (step s e).board := by
  cases e with
  | piece id =>
    simp only [step]
    split
    · simp only [clickPiece]
      split
      · rw [selectPiece_board]; exact h
      · exact h
    · exact h
  | cell i j =>
    simp only [step, clickCell]
    split
    · split
      · unfold movePiece
        split
        · exact h
        · exact ((boardAfterCapture_sublist s.board s.marks i j).map Piece.id).nodup h
      · exact h
    · exact h
  | timeout =>
    simp only [step]
    cases htl : s.timers with
    | nil => rw [runTimer_nil s htl]; exact h
    | cons t rest =>
      rw [runTimer_cons s t rest htl, timerCallback_board]
      exact relocate_distinctIds s.board t h

/-- No interleaving of clicks and timer callbacks makes one element appear
twice on the board. -/
theorem reachable_distinctIds (s : State) (h : Reachable s) : DistinctIds s.board := by
  obtain ⟨es, rfl⟩ := h
  have hrun : ∀ (es : List Event) (s : State),
      DistinctIds s.board → DistinctIds (run s es).board := by
    intro es
    induction es with
    | nil => exact fun s h => h
    | cons e rest ih => exact fun s h => ih (step s e) (step_distinctIds s e h)
  exact hrun es initialState (by decide)

theorem selectPiece_settled (s : State) (piece : Piece) (h : Settled s) :
    Settled (selectPiece s piece) := by
  obtain ⟨ht, hids, hsq, _⟩ := h
  refine ⟨?_, ?_, ?_, ?_⟩
  · rw [selectPiece_timers]; exact ht
  · rw [selectPiece_board]; exact hids
  · rw [selectPiece_board]; exact hsq
  · intro k hk
    obtain ⟨m, hm, hi, hj⟩ := selectPiece_marks s piece k hk
    rw [selectPiece_board, hi, hj]
    exact getValidMoves_dest_empty s.board piece m hm

theorem timerCallback_settled (s : State) (t : Timer) (ht : s.timers = [])
    (hids : DistinctIds (relocate s.board t)) (hsq : OnePerSquare (relocate s.board t)) :
    Settled (timerCallback s t) := by
  have hnil : ∀ k ∈ ([] : List Mark),
      cellExists k.i k.j = true ∧ getPieceAt (relocate s.board t) k.i k.j = none :=
    fun k hk => absurd hk (List.not_mem_nil k)
  unfold timerCallback
  simp only [clearSelection]
  split
  · exact ⟨ht, hids, hsq, hnil⟩
  · split
    · exact selectPiece_settled _ t.moved ⟨ht, hids, hsq, hnil⟩
    · exact ⟨ht, hids, hsq, hnil⟩

theorem act_settled (s : State) (a : Action) (h : Settled s) : Settled (act s a) := by
  have hidle : runTimer s = s := runTimer_nil s h.1
  cases a with
  | select id =>
    simp only [act, step]
    split
    · simp only [clickPiece]
      split
      · exact selectPiece_settled s _ h
      · exact h
    · exact h
  | move i j =>
    simp only [act, step, clickCell]
    split
    · split
      · rename_i hguard
        obtain ⟨k, hk⟩ := Option.isSome_iff_exists.1 hguard.1
        obtain ⟨sp, hsp⟩ := Option.isSome_iff_exists.1 hguard.2
        have hkat : k.i = i ∧ k.j = j := by
          simpa [Mark.isAt] using List.find?_some hk
        have hkm := h.2.2.2 k (List.mem_of_find?_eq_some hk)
        rw [hkat.1, hkat.2] at hkm
        rw [runTimer_movePiece s i j sp h.1 hsp]
        apply timerCallback_settled
        · exact h.1
        · exact relocate_distinctIds _ _
            (((boardAfterCapture_sublist s.board s.marks i j).map Piece.id).nodup h.2.1)
        · exact relocate_onePerSquare s.board _ _ h.2.2.1 hkm.1 hkm.2
            (boardAfterCapture_sublist s.board s.marks i j)
      · rw [hidle]; exact h
    · rw [hidle]; exact h

theorem play_settled (as : List Action) :
    ∀ s : State, Settled s → Settled (play s as) := by
  induction as with
  | nil => exact fun s h => h
  | cons a rest ih => exact fun s h => ih (act s a) (act_settled s a h)

theorem play_eq_run (as : List Action) :
    ∀ s : State, ∃ es : List Event, play s as = run s es := by
  induction as with
  | nil => exact fun s => ⟨[], rfl⟩
  | cons a rest ih =>
    intro s
    obtain ⟨es, hes⟩ := ih (act s a)
    cases a with
    | select id => exact ⟨Event.piece id :: es, hes⟩
    | move i j => exact ⟨Event.cell i j :: Event.timeout :: es, hes⟩

/-- The board invariant holds along every play in which each move completes
before the next click: no two pieces share a square, every piece has
`row`/`col` fields equal to the cell it is a child of, and that cell is inside
the grid with `row + col` odd. -/
theorem play_board_invariant (as : List Action) :
    OnePerSquare (play initialState as).board ∧
      DistinctIds (play initialState as).board ∧
      ∀ p ∈ (play initialState as).board,
        p.row = p.ci ∧ p.col = p.cj ∧ Playable p.ci p.cj := by
  have hinit : Settled initialState :=
    ⟨rfl, by decide, by decide, fun k hk => absurd hk (List.not_mem_nil k)⟩
  have hs := play_settled as initialState hinit
  obtain ⟨es, hes⟩ := play_eq_run as initialState
  exact ⟨hs.2.2.1, hs.2.1, reachable_onPlayable _ ⟨es, hes⟩⟩

/-- C9 (board invariant) fails on the code: `stackedStart` is reached from the
board built by `createBoard` by four clicks and two timer callbacks, every
click being accepted by the handler, and in it the cell `(4, 1)` holds two
pieces. -/
theorem stackedStart_two_on_a_square :
    Reachable stackedStart ∧
      DistinctIds initialState.board ∧ OnePerSquare initialState.board ∧
      (run initialState [Event.piece 40, Event.cell 4 1, Event.piece 42]).selectedPiece
        = some ⟨42, .white⟩ ∧
      findMark (run initialState [Event.piece 40, Event.cell 4 1, Event.piece 42]).marks 4 1
        = some ⟨4, 1, .move, none, none⟩ ∧
      stackedStart.board.filter (fun a => a.ci == 4 && a.cj == 1)
        = [⟨40, .white, 4, 1, 4, 1⟩, ⟨42, .white, 4, 1, 4, 1⟩] ∧
      stackedStart.timers = [] ∧
      ¬OnePerSquare stackedStart.board := by
  refine ⟨⟨_, rfl⟩, ?_⟩
  rw [stackedStart_eq]
  decide!

/-! ## Rejected selections -/

/-- C10 (rejected selection), as amended: when `selectPiece(piece)` rejects the
piece (its colour is not `currentTurn`, or a chain is in progress and the piece
is not the chain piece, or a capture is available for `currentTurn` and the
piece has none), the state after the call is the state before it with the
selection cleared: `selectedPiece` is null and no cell is marked, while
`currentTurn`, `chainCapturePiece`, the board, the pending moves and the
overlays are unchanged; so nothing changes at all when nothing was selected. -/
theorem selectPiece_rejected (s : State) (piece : Piece)
    (hrej : piece.color ≠ s.currentTurn ∨
      (∃ c, s.chainCapturePiece = some c ∧ piece.id ≠ c.id) ∨
      (canAnyPieceCapture s.board s.currentTurn = true ∧
        ∀ m ∈ getValidMoves s.board piece, m.type ≠ .capture)) :
    selectPiece s piece = clearSelection s ∧
      (selectPiece s piece).selectedPiece = none ∧
      (selectPiece s piece).marks = [] ∧
      (selectPiece s piece).currentTurn = s.currentTurn ∧
      (selectPiece s piece).chainCapturePiece = s.chainCapturePiece ∧
      (selectPiece s piece).board = s.board ∧
      (selectPiece s piece).timers = s.timers ∧
      (selectPiece s piece).overlays = s.overlays ∧
      (s.selectedPiece = none → s.marks = [] → selectPiece s piece = s) := by
  have h : selectPiece s piece = clearSelection s := by
    rcases hrej with hcol | ⟨c, hc, hid⟩ | ⟨hcap, hno⟩
    · unfold selectPiece
      simp only [clearSelection]
      rw [if_pos hcol]
    · unfold selectPiece
      simp only [clearSelection, hc]
      split
      · rfl
      · simp [hid]
    · exact selectPiece_eq_clear_of_forced s piece hcap hno
  rw [h]
  refine ⟨rfl, rfl, rfl, rfl, rfl, rfl, rfl, rfl, ?_⟩
  intro h1 h2
  cases s
  simp only [clearSelection] at h1 h2 ⊢
  subst h1 h2
  rfl

/-- Witness for C10 in the example game: after `opening`, with nothing
selected, the white piece 40 has no capture while white has one; selecting it
is rejected and leaves the state as it was. -/
theorem selectPiece_rejected_witness :
    canAnyPieceCapture afterOpening.board afterOpening.currentTurn = true ∧
      selectPiece afterOpening ⟨40, .white, 5, 0, 5, 0⟩ = clearSelection afterOpening ∧
      selectPiece afterOpening ⟨40, .white, 5, 0, 5, 0⟩ = afterOpening :=
  have h := selectPiece_rejected afterOpening ⟨40, .white, 5, 0, 5, 0⟩
    (Or.inr (Or.inr ⟨(by rw [afterOpening_eq]; decide!), (by rw [afterOpening_eq]; decide!)⟩))
  ⟨(by rw [afterOpening_eq]; decide!), h.1, h.2.2.2.2.2.2.2.2 (by rw [afterOpening_eq]; decide!)
    (by rw [afterOpening_eq]; decide!)⟩

/-- Counterexample to C10 as stated: `selectedMid` is reached from the initial
board by play; in it piece 42 is selected and `(2, 5)` is marked.  A click on
the white piece 40 calls `selectPiece`, which rejects it (a capture is
available and piece 40 has none); afterwards nothing is selected and nothing is
marked, so the state is not the state before the call. -/
theorem selectPiece_rejected_counterexample :
    Reachable selectedMid ∧
      selectedMid.selectedPiece = some ⟨42, .white⟩ ∧
      findMark selectedMid.marks 2 5 = some ⟨2, 5, .capture, some 3, some 4⟩ ∧
      selectedMid.currentTurn = .white ∧
      canAnyPieceCapture selectedMid.board selectedMid.currentTurn = true ∧
      (∀ m ∈ getValidMoves selectedMid.board ⟨40, .white, 5, 0, 5, 0⟩, m.type ≠ .capture) ∧
      step selectedMid (Event.piece 40) = selectPiece selectedMid ⟨40, .white, 5, 0, 5, 0⟩ ∧
      (selectPiece selectedMid ⟨40, .white, 5, 0, 5, 0⟩).selectedPiece = none ∧
      (selectPiece selectedMid ⟨40, .white, 5, 0, 5, 0⟩).marks = [] ∧
      selectPiece selectedMid ⟨40, .white, 5, 0, 5, 0⟩ ≠ selectedMid := by
  refine ⟨⟨_, rfl⟩, ?_⟩
  rw [selectedMid_eq]; decide!

/-! ## The initial position -/

/-- C12 (scenario A): on the board built by `createBoard` the white piece on
`(5, 0)` has exactly one move, the step to `(4, 1)`, and
`canAnyPieceCapture` is false for white and for black. -/
theorem initial_scenarioA :
    getPieceAt createBoard 5 0 = some ⟨40, .white, 5, 0, 5, 0⟩ ∧
      getValidMoves createBoard ⟨40, .white, 5, 0, 5, 0⟩ = [⟨4, 1, .move, none, none⟩] ∧
      canAnyPieceCapture createBoard .white = false ∧
      canAnyPieceCapture createBoard .black = false := by
  decide

/-- C13 (initial set-up): `createBoard` puts a black piece on exactly the
squares of rows 0 to 2 with `row + col` odd, a white piece on exactly the
squares of rows 5 to 7 with `row + col` odd, and nothing elsewhere (one piece
per square, every piece in a cell of the grid); each colour has 12 pieces;
the `row`/`col` fields of every piece are its square; black advances by `+1`
and white by `-1`, and every black piece starts on a lower row than every
white piece. -/
theorem createBoard_setup :
    (∀ r c : Int, getPieceAt createBoard r c =
        if 0 ≤ r ∧ r ≤ 2 ∧ 0 ≤ c ∧ c < 8 ∧ (r + c) % 2 = 1 then
          some ⟨(8 * r + c).toNat, .black, r, c, r, c⟩
        else if 5 ≤ r ∧ r < 8 ∧ 0 ≤ c ∧ c < 8 ∧ (r + c) % 2 = 1 then
          some ⟨(8 * r + c).toNat, .white, r, c, r, c⟩
        else none) ∧
      OnePerSquare createBoard ∧
      (∀ p ∈ createBoard, cellExists p.ci p.cj = true) ∧
      countColor createBoard .black = 12 ∧ countColor createBoard .white = 12 ∧
      (∀ p ∈ createBoard, p.row = p.ci ∧ p.col = p.cj) ∧
      direction .black = 1 ∧ direction .white = -1 ∧
      (∀ p ∈ createBoard, ∀ q ∈ createBoard,
        p.color = .black → q.color = .white → p.row < q.row) := by
  refine ⟨?_, by decide, by decide, by decide, by decide, by decide, rfl, rfl, by decide⟩
  intro r c
  by_cases h : 0 ≤ r ∧ r < 8 ∧ 0 ≤ c ∧ c < 8
  · obtain ⟨h1, h2, h3, h4⟩ := h
    interval_cases r <;> interval_cases c <;> decide
  · have hcell : cellExists r c = false := by
      simp only [cellExists, Bool.and_eq_false_iff, decide_eq_false_iff_not]
      by_contra hc
      exact h (by omega)
    have hb : ¬(0 ≤ r ∧ r ≤ 2 ∧ 0 ≤ c ∧ c < 8 ∧ (r + c) % 2 = 1) := by omega
    have hw : ¬(5 ≤ r ∧ r < 8 ∧ 0 ≤ c ∧ c < 8 ∧ (r + c) % 2 = 1) := by omega
    rw [getPieceAt, hcell, if_neg hb, if_neg hw]
    rfl

/-! ## Victory evaluation -/

/-- C14 (victory depends only on the counts): `checkVictory` reports a winner
exactly when some colour has no piece on the board, and the winner it reports
is the other colour; when both colours have a piece it reports none, whatever
the moves available.  In `stalemate`, reached by play, black is to move, its
only piece has no move, and no winner is or has been reported. -/
theorem checkVictory_counts (b : List Piece) :
    ((∃ w, checkVictory b = some w) ↔ ∃ c, countColor b c = 0) ∧
      (∀ w, checkVictory b = some w → countColor b w.other = 0) ∧
      (0 < countColor b .white ∧ 0 < countColor b .black → checkVictory b = none) ∧
      (Reachable stalemate ∧ stalemate.timers = [] ∧
        stalemate.currentTurn = .black ∧
        0 < countColor stalemate.board .white ∧ 0 < countColor stalemate.board .black ∧
        (∀ p ∈ stalemate.board, p.color = stalemate.currentTurn →
          getValidMoves stalemate.board p = []) ∧
        checkVictory stalemate.board = none ∧ stalemate.overlays = []) := by
  refine ⟨?_, ?_, ?_, ⟨_, rfl⟩, ?_⟩
  · unfold checkVictory
    constructor
    · rintro ⟨w, hw⟩
      split at hw
      · exact ⟨.white, by assumption⟩
      · split at hw
        · exact ⟨.black, by assumption⟩
        · cases hw
    · rintro ⟨c, hc⟩
      cases c with
      | white => exact ⟨.black, by rw [if_pos hc]⟩
      | black =>
        by_cases hw : countColor b .white = 0
        · exact ⟨.black, by rw [if_pos hw]⟩
        · exact ⟨.white, by rw [if_neg hw, if_pos hc]⟩
  · intro w hw
    unfold checkVictory at hw
    split at hw
    · cases hw; assumption
    · split at hw
      · cases hw; assumption
      · cases hw
  · rintro ⟨hw, hb⟩
    unfold checkVictory
    rw [if_neg (by omega), if_neg (by omega)]
  · rw [stalemate_eq]; decide!

/-! ## Destinations and marks -/

theorem filterMap_map_sublist {α β γ : Type} (f : α → Option β) (g : β → γ) (h : α → γ)
    (hf : ∀ a b, f a = some b → g b = h a) (l : List α) :
    List.Sublist ((l.filterMap f).map g) (l.map h) := by
  induction l with
  | nil => exact List.Sublist.refl _
  | cons a l ih =>
    rw [List.filterMap_cons, List.map_cons]
    cases hfa : f a with
    | none => exact List.Sublist.cons _ ih
    | some b0 =>
      simp only [List.map_cons]
      rw [hf a b0 hfa]
      exact List.Sublist.cons₂ _ ih

theorem candidateSquares_nodup (color : Color) (row col : Int) :
    (candidateSquares color row col).Nodup := by
  cases color <;>
    simp [candidateSquares, forwardMoves, allDirections, direction] <;> omega

theorem getValidMoves_dests_sublist (b : List Piece) (p : Piece) :
    List.Sublist ((getValidMoves b p).map (fun m => (m.row, m.col)))
      (candidateSquares p.color p.row p.col) := by
  rw [getValidMoves, candidateSquares, List.map_append]
  apply List.Sublist.append
  · apply filterMap_map_sublist
    intro d m hm
    obtain ⟨_, _, rfl⟩ := (stepMove_eq_some b p.row p.col d m).1 hm
    rfl
  · apply filterMap_map_sublist
    intro d m hm
    obtain ⟨_, _, _, _, rfl⟩ := (captureMove_eq_some b p.color p.row p.col d m).1 hm
    rfl

theorem getValidMoves_pairwise (b : List Piece) (p : Piece) :
    (getValidMoves b p).Pairwise (fun a c => ¬(a.row = c.row ∧ a.col = c.col)) := by
  have h : ((getValidMoves b p).map (fun m => (m.row, m.col))).Nodup :=
    (getValidMoves_dests_sublist b p).nodup (candidateSquares_nodup p.color p.row p.col)
  rw [List.Nodup, List.pairwise_map] at h
  exact h.imp (fun hne heq => hne (Prod.ext heq.1 heq.2))

theorem markCell_fresh (marks : List Mark) (m : Move)
    (h : ∀ k ∈ marks, ¬(k.i = m.row ∧ k.j = m.col)) :
    markCell marks m = marks ++ [Mark.ofMove m] := by
  unfold markCell
  rw [if_neg]
  rw [List.any_eq_true]
  rintro ⟨k, hk, hat⟩
  exact h k hk (by simpa [Mark.isAt] using hat)

theorem Mark.ofMove_pos (m : Move) : (Mark.ofMove m).i = m.row ∧ (Mark.ofMove m).j = m.col := by
  unfold Mark.ofMove Mark.write
  split <;> exact ⟨rfl, rfl⟩

theorem foldl_markCell_fresh (moves : List Move)
    (hpw : moves.Pairwise (fun a c => ¬(a.row = c.row ∧ a.col = c.col))) :
    ∀ marks : List Mark,
      (∀ k ∈ marks, ∀ m ∈ moves, ¬(k.i = m.row ∧ k.j = m.col)) →
      moves.foldl markCell marks = marks ++ moves.map Mark.ofMove := by
  induction moves with
  | nil => intro marks _; simp
  | cons m rest ih =>
    intro marks hmarks
    rw [List.pairwise_cons] at hpw
    rw [List.foldl_cons,
      markCell_fresh marks m (fun k hk => hmarks k hk m (List.mem_cons_self _ _)),
      ih hpw.2, List.map_cons, List.append_assoc, List.singleton_append]
    intro k hk m2 hm2
    rcases List.mem_append.1 hk with h | h
    · exact hmarks k h m2 (List.mem_cons_of_mem _ hm2)
    · rw [List.mem_singleton.1 h, (Mark.ofMove_pos m).1, (Mark.ofMove_pos m).2]
      exact hpw.1 m2 hm2

theorem availableMoves_sublist (mustCapture : Bool) (moves : List Move) :
    List.Sublist (availableMoves mustCapture moves) moves := by
  unfold availableMoves
  split
  · exact List.filter_sublist _
  · exact List.Sublist.refl _

theorem availableMoves_pairwise (b : List Piece) (p : Piece) (mustCapture : Bool) :
    (availableMoves mustCapture (getValidMoves b p)).Pairwise
      (fun a c => ¬(a.row = c.row ∧ a.col = c.col)) :=
  (getValidMoves_pairwise b p).sublist (availableMoves_sublist mustCapture _)

theorem marks_of_available (b : List Piece) (p : Piece) (mustCapture : Bool) :
    (availableMoves mustCapture (getValidMoves b p)).foldl markCell []
      = (availableMoves mustCapture (getValidMoves b p)).map Mark.ofMove := by
  rw [foldl_markCell_fresh _ (availableMoves_pairwise b p mustCapture) []
    (fun k hk => absurd hk (List.not_mem_nil k)), List.nil_append]

theorem countP_filterMap_step (b : List Piece) (row col : Int) (l : List (Int × Int)) :
    ((l.filterMap (stepMove b row col)).filter Move.isCapture) = [] := by
  rw [List.filter_eq_nil_iff]
  intro m hm
  obtain ⟨d, _, hd⟩ := List.mem_filterMap.1 hm
  simp [Move.isCapture, stepMove_type b row col d m hd]

theorem filter_move_filterMap_capture (b : List Piece) (color : Color) (row col : Int)
    (l : List (Int × Int)) :
    ((l.filterMap (captureMove b color row col)).filter (fun m => m.type == .move)) = [] := by
  rw [List.filter_eq_nil_iff]
  intro m hm
  obtain ⟨d, _, hd⟩ := List.mem_filterMap.1 hm
  simp [captureMove_type b color row col d m hd]

/-- C18: no two moves returned by `getValidMoves` have the same destination
square; at most 2 of them are steps and at most 4 are captures; hence, in the
marking loop of `selectPiece`, the cell of each move is not marked yet when its
turn comes, and the marks written are one per move, none overwritten. -/
theorem getValidMoves_distinct_destinations (b : List Piece) (p : Piece) :
    (getValidMoves b p).Pairwise (fun a c => ¬(a.row = c.row ∧ a.col = c.col)) ∧
      ((getValidMoves b p).filter (fun m => m.type == .move)).length ≤ 2 ∧
      ((getValidMoves b p).filter Move.isCapture).length ≤ 4 ∧
      ∀ mustCapture : Bool,
        (∀ pre m post, availableMoves mustCapture (getValidMoves b p) = pre ++ m :: post →
          findMark (pre.foldl markCell []) m.row m.col = none) ∧
        (availableMoves mustCapture (getValidMoves b p)).foldl markCell []
          = (availableMoves mustCapture (getValidMoves b p)).map Mark.ofMove := by
  refine ⟨getValidMoves_pairwise b p, ?_, ?_, ?_⟩
  · rw [getValidMoves, List.filter_append, filter_move_filterMap_capture, List.append_nil]
    exact (List.length_filter_le _ _).trans (List.length_filterMap_le _ _)
  · rw [getValidMoves, List.filter_append, countP_filterMap_step, List.nil_append]
    exact (List.length_filter_le _ _).trans (List.length_filterMap_le _ _)
  · intro mustCapture
    refine ⟨?_, marks_of_available b p mustCapture⟩
    intro pre m post hsplit
    have hpw := availableMoves_pairwise b p mustCapture
    rw [hsplit, List.pairwise_append] at hpw
    obtain ⟨hpre, _, hcross⟩ := hpw
    rw [foldl_markCell_fresh pre hpre [] (fun k hk => absurd hk (List.not_mem_nil k)),
      List.nil_append, findMark, List.find?_eq_none]
    intro k hk
    obtain ⟨m0, hm0, rfl⟩ := List.mem_map.1 hk
    have := hcross m0 hm0 m (List.mem_cons_self _ _)
    simpa [Mark.isAt, (Mark.ofMove_pos m0).1, (Mark.ofMove_pos m0).2] using this

theorem Mark.ofMove_eq (b : List Piece) (p : Piece) (m : Move) (hm : m ∈ getValidMoves b p) :
    Mark.ofMove m = ⟨m.row, m.col, m.type, m.capturedRow, m.capturedCol⟩ := by
  rcases (mem_getValidMoves b p m).1 hm with ⟨d, _, hd⟩ | ⟨d, _, hd⟩
  · obtain ⟨_, _, rfl⟩ := (stepMove_eq_some b p.row p.col d m).1 hd
    rfl
  · obtain ⟨_, _, _, _, rfl⟩ := (captureMove_eq_some b p.color p.row p.col d m).1 hd
    rfl

theorem findMark_map_ofMove (moves : List Move)
    (hpw : moves.Pairwise (fun a c => ¬(a.row = c.row ∧ a.col = c.col))) :
    ∀ m ∈ moves, findMark (moves.map Mark.ofMove) m.row m.col = some (Mark.ofMove m) := by
  induction moves with
  | nil => exact fun m hm => absurd hm (List.not_mem_nil m)
  | cons a rest ih =>
    intro m hm
    rw [List.pairwise_cons] at hpw
    rw [findMark, List.map_cons, List.find?_cons]
    rcases List.mem_cons.1 hm with rfl | hrest
    · simp [Mark.isAt, (Mark.ofMove_pos m).1, (Mark.ofMove_pos m).2]
    · have hne : Mark.isAt m.row m.col (Mark.ofMove a) = false := by
        simpa [Mark.isAt, (Mark.ofMove_pos a).1, (Mark.ofMove_pos a).2] using hpw.1 m hrest
      rw [hne]
      exact ih hpw.2 m hrest

theorem findMark_map_ofMove_isSome (moves : List Move) (i j : Int) :
    (findMark (moves.map Mark.ofMove) i j).isSome = true ↔
      ∃ m ∈ moves, m.row = i ∧ m.col = j := by
  rw [findMark, List.find?_isSome]
  constructor
  · rintro ⟨k, hk, hat⟩
    obtain ⟨m, hm, rfl⟩ := List.mem_map.1 hk
    exact ⟨m, hm, by simpa [Mark.isAt, (Mark.ofMove_pos m).1, (Mark.ofMove_pos m).2] using hat⟩
  · rintro ⟨m, hm, hi, hj⟩
    exact ⟨Mark.ofMove m, List.mem_map_of_mem _ hm,
      by simp [Mark.isAt, (Mark.ofMove_pos m).1, (Mark.ofMove_pos m).2, hi, hj]⟩

theorem selectPiece_marks_of_selected (s : State) (piece : Piece)
    (hsucc : (selectPiece s piece).selectedPiece = some piece.ref) :
    (selectPiece s piece).marks =
      (availableMoves (canAnyPieceCapture s.board s.currentTurn)
        (getValidMoves s.board piece)).map Mark.ofMove := by
  rcases selectPiece_cases s piece with h | h
  · rw [h] at hsucc
    cases hsucc
  · rw [h]
    exact marks_of_available s.board piece _

/-- C16 (candidate filtering): when `selectPiece(piece)` succeeds, the marked
cells are the destinations of the capture moves of `getValidMoves(piece)` if
`canAnyPieceCapture(currentTurn)` is true and the destinations of all its moves
otherwise, one mark per move; the mark on the destination of a move carries the
type of that move and, for a capture, its captured square. -/
theorem selectPiece_candidates (s : State) (piece : Piece)
    (hsucc : (selectPiece s piece).selectedPiece = some piece.ref) :
    (selectPiece s piece).marks =
        (availableMoves (canAnyPieceCapture s.board s.currentTurn)
          (getValidMoves s.board piece)).map
          (fun m => ⟨m.row, m.col, m.type, m.capturedRow, m.capturedCol⟩) ∧
      (canAnyPieceCapture s.board s.currentTurn = true →
        ∀ i j, (findMark (selectPiece s piece).marks i j).isSome = true ↔
          ∃ m ∈ getValidMoves s.board piece, m.type = .capture ∧ m.row = i ∧ m.col = j) ∧
      (canAnyPieceCapture s.board s.currentTurn = false →
        ∀ i j, (findMark (selectPiece s piece).marks i j).isSome = true ↔
          ∃ m ∈ getValidMoves s.board piece, m.row = i ∧ m.col = j) ∧
      ∀ m ∈ availableMoves (canAnyPieceCapture s.board s.currentTurn)
          (getValidMoves s.board piece),
        findMark (selectPiece s piece).marks m.row m.col
          = some ⟨m.row, m.col, m.type, m.capturedRow, m.capturedCol⟩ := by
  have hmarks := selectPiece_marks_of_selected s piece hsucc
  have hsub := availableMoves_sublist (canAnyPieceCapture s.board s.currentTurn)
    (getValidMoves s.board piece)
  refine ⟨?_, ?_, ?_, ?_⟩
  · rw [hmarks]
    apply List.map_congr_left
    intro m hm
    exact Mark.ofMove_eq s.board piece m (hsub.subset hm)
  · intro hcap i j
    rw [hmarks, findMark_map_ofMove_isSome, hcap]
    simp only [availableMoves, if_true, List.mem_filter, Move.isCapture, beq_iff_eq]
    constructor
    · rintro ⟨m, ⟨hm, hty⟩, hi, hj⟩
      exact ⟨m, hm, hty, hi, hj⟩
    · rintro ⟨m, hm, hty, hi, hj⟩
      exact ⟨m, ⟨hm, hty⟩, hi, hj⟩
  · intro hcap i j
    rw [hmarks, findMark_map_ofMove_isSome, hcap]
    simp only [availableMoves, Bool.false_eq_true, if_false]
  · intro m hm
    rw [hmarks, findMark_map_ofMove _ (availableMoves_pairwise s.board piece _) m hm,
      Mark.ofMove_eq s.board piece m (hsub.subset hm)]

/-- Witness for C16 in the example game: after `opening` white has a capture;
selecting piece 42 succeeds and marks exactly `(2, 5)`, as a capture over
`(3, 4)`, though piece 42 also has the step to `(3, 2)`. -/
theorem selectPiece_candidates_witness :
    (selectPiece afterOpening ⟨42, .white, 4, 3, 4, 3⟩).selectedPiece = some ⟨42, .white⟩ ∧
      canAnyPieceCapture afterOpening.board afterOpening.currentTurn = true ∧
      getValidMoves afterOpening.board ⟨42, .white, 4, 3, 4, 3⟩
        = [⟨3, 2, .move, none, none⟩, ⟨2, 5, .capture, some 3, some 4⟩] ∧
      (selectPiece afterOpening ⟨42, .white, 4, 3, 4, 3⟩).marks
        = [⟨2, 5, .capture, some 3, some 4⟩] :=
  have h := selectPiece_candidates afterOpening ⟨42, .white, 4, 3, 4, 3⟩
    (by rw [afterOpening_eq]; decide!)
  ⟨(by rw [afterOpening_eq]; decide!), (by rw [afterOpening_eq]; decide!),
    (by rw [afterOpening_eq]; decide!), h.1.trans (by rw [afterOpening_eq]; decide!)⟩

/-! ## Clicks on cells -/

theorem movePiece_marks (s : State) (i j : Int) :
    (movePiece s i j).marks = s.marks ∧ (movePiece s i j).selectedPiece = s.selectedPiece ∧
      (movePiece s i j).currentTurn = s.currentTurn ∧
      (movePiece s i j).chainCapturePiece = s.chainCapturePiece ∧
      (movePiece s i j).overlays = s.overlays := by
  unfold movePiece
  split <;> exact ⟨rfl, rfl, rfl, rfl, rfl⟩

theorem step_of_selectCall (s : State) (e : Event) (s0 : State) (p : Piece)
    (h : selectCall s e = some (s0, p)) :
    step s e = selectPiece s0 p ∧ p ∈ s0.board := by
  cases e with
  | piece id =>
    simp only [selectCall] at h
    simp only [step]
    cases hf : s.board.find? (fun p => p.id == id) with
    | none => rw [hf] at h; cases h
    | some q =>
      rw [hf] at h
      simp only at h ⊢
      by_cases hc : q.color = s.currentTurn
      · rw [if_pos hc] at h
        cases h
        exact ⟨by simp only [clickPiece]; rw [if_pos hc], List.mem_of_find?_eq_some hf⟩
      · rw [if_neg hc] at h
        cases h
  | cell i j => cases h
  | timeout =>
    simp only [selectCall] at h
    simp only [step, runTimer]
    cases ht : s.timers with
    | nil => rw [ht] at h; cases h
    | cons t rest =>
      rw [ht] at h
      simp only at h ⊢
      unfold timerCallback
      simp only
      cases hv : checkVictory
          (clearSelection { { s with timers := rest } with board := relocate s.board t }).board with
      | some w => rw [hv] at h; cases h
      | none =>
        rw [hv] at h
        simp only at h ⊢
        by_cases hc : t.wasCapture = true ∧ ((getValidMoves
            (clearSelection
              { { s with timers := rest } with board := relocate s.board t }).board
            t.moved).filter Move.isCapture).length > 0
        · rw [if_pos hc] at h
          rw [if_pos hc]
          cases h
          refine ⟨rfl, ?_⟩
          simp [clearSelection, relocate]
        · rw [if_neg hc] at h
          cases h

theorem step_of_no_selectCall (s : State) (e : Event) (h : selectCall s e = none) :
    ((step s e).selectedPiece = s.selectedPiece ∧ (step s e).marks = s.marks) ∨
      ((step s e).selectedPiece = none ∧ (step s e).marks = []) := by
  cases e with
  | piece id =>
    simp only [selectCall] at h
    simp only [step]
    cases hf : s.board.find? (fun p => p.id == id) with
    | none => exact Or.inl ⟨rfl, rfl⟩
    | some q =>
      rw [hf] at h
      simp only at h ⊢
      by_cases hc : q.color = s.currentTurn
      · rw [if_pos hc] at h
        cases h
      · simp only [clickPiece]
        rw [if_neg hc]
        exact Or.inl ⟨rfl, rfl⟩
  | cell i j =>
    simp only [step, clickCell]
    split
    · split
      · obtain ⟨hm, hs, _⟩ := movePiece_marks s i j
        exact Or.inl ⟨hs, hm⟩
      · exact Or.inl ⟨rfl, rfl⟩
    · exact Or.inl ⟨rfl, rfl⟩
  | timeout =>
    simp only [selectCall] at h
    simp only [step, runTimer]
    cases ht : s.timers with
    | nil => exact Or.inl ⟨rfl, rfl⟩
    | cons t rest =>
      rw [ht] at h
      simp only at h ⊢
      unfold timerCallback
      simp only
      cases hv : checkVictory
          (clearSelection { { s with timers := rest } with board := relocate s.board t }).board with
      | some w => exact Or.inr ⟨rfl, rfl⟩
      | none =>
        rw [hv] at h
        simp only at h ⊢
        by_cases hc : t.wasCapture = true ∧ ((getValidMoves
            (clearSelection
              { { s with timers := rest } with board := relocate s.board t }).board
            t.moved).filter Move.isCapture).length > 0
        · rw [if_pos hc] at h
          cases h
        · rw [if_neg hc]
          exact Or.inr ⟨rfl, rfl⟩

theorem run_concat (s : State) (es : List Event) (e : Event) :
    run s (es ++ [e]) = step (run s es) e := by
  rw [run_append]
  rfl

theorem selectCalls_concat (es : List Event) (e : Event) :
    ∀ s : State, selectCalls s (es ++ [e])
      = selectCalls s es ++ (selectCall (run s es) e).toList := by
  induction es with
  | nil =>
    intro s
    simp [selectCalls, run]
  | cons a rest ih =>
    intro s
    have hrun : run s (a :: rest) = run (step s a) rest := rfl
    rw [List.cons_append, selectCalls, ih, selectCalls, hrun, List.append_assoc]

theorem getLast?_filter_of_getLast? {α : Type} (f : α → Bool) (l : List α) (c : α)
    (hl : l.getLast? = some c) (hc : f c = true) :
    (l.filter f).getLast? = some c := by
  obtain ⟨ys, rfl⟩ := List.getLast?_eq_some_iff.1 hl
  rw [List.filter_append, List.filter_cons_of_pos hc, List.filter_nil, List.getLast?_concat]

/-- Along every run, either no piece is selected and no cell is marked, or the
last call of `selectPiece` succeeded and the selection and the marks are the
ones it left. -/
theorem run_selection (es : List Event) :
    ((run initialState es).selectedPiece = none ∧ (run initialState es).marks = []) ∨
      ∃ (s0 : State) (piece : Piece),
        (selectCalls initialState es).getLast? = some (s0, piece) ∧
        piece ∈ s0.board ∧
        (selectPiece s0 piece).selectedPiece = some piece.ref ∧
        (run initialState es).selectedPiece = some piece.ref ∧
        (run initialState es).marks = (selectPiece s0 piece).marks := by
  induction es using List.reverseRecOn with
  | nil => exact Or.inl ⟨rfl, rfl⟩
  | append_singleton es e ih =>
    rw [run_concat, selectCalls_concat]
    cases hc : selectCall (run initialState es) e with
    | none =>
      rw [Option.toList, List.append_nil]
      rcases step_of_no_selectCall _ e hc with ⟨hs, hm⟩ | ⟨hs, hm⟩
      · rw [hs, hm]
        exact ih
      · exact Or.inl ⟨hs, hm⟩
    | some c =>
      obtain ⟨s0, p⟩ := c
      obtain ⟨hstep, hp⟩ := step_of_selectCall _ e s0 p hc
      rw [hstep]
      rcases selectPiece_cases s0 p with h | h
      · exact Or.inl ⟨by rw [h]; rfl, by rw [h]; rfl⟩
      · exact Or.inr ⟨s0, p, by simp [Option.toList], hp, by rw [h], by rw [h], rfl⟩

/-- C15 (illegal destination): in the state reached from the initial page by
any sequence of events `es`, a click on a cell `(i, j)` (outside any piece)
either is ignored, leaving the whole state unchanged, or is applied by
`movePiece`.  It is applied only if a piece is selected and the cell is among
the destinations marked for that piece by the last successful `selectPiece`
call of the run: that call, `selectPiece(piece)` entered in state `s0`, is also
the last `selectPiece` call of the run, `piece` was on the board then, it is
the selected piece now, the marks now are the ones that call left, and `(i, j)`
is the destination of one of the moves it marked, whose type and captured
square the mark carries.  Whenever no piece is selected or the cell is not
marked, the board, `currentTurn`, `selectedPiece` and `chainCapturePiece` are
unchanged. -/
theorem clickCell_needs_mark (es : List Event) (i j : Int) :
    (step (run initialState es) (Event.cell i j) = run initialState es ∨
      step (run initialState es) (Event.cell i j) = movePiece (run initialState es) i j) ∧
    (step (run initialState es) (Event.cell i j) ≠ run initialState es →
      ∃ (s0 : State) (piece : Piece) (m : Move),
        lastSuccessfulSelect initialState es = some (s0, piece) ∧
        (selectCalls initialState es).getLast? = some (s0, piece) ∧
        piece ∈ s0.board ∧
        (run initialState es).selectedPiece = some piece.ref ∧
        (run initialState es).marks = (selectPiece s0 piece).marks ∧
        m ∈ availableMoves (canAnyPieceCapture s0.board s0.currentTurn)
          (getValidMoves s0.board piece) ∧
        m.row = i ∧ m.col = j ∧
        findMark (selectPiece s0 piece).marks i j
          = some ⟨i, j, m.type, m.capturedRow, m.capturedCol⟩) ∧
    (¬((run initialState es).selectedPiece.isSome = true ∧
        (findMark (run initialState es).marks i j).isSome = true) →
      step (run initialState es) (Event.cell i j) = run initialState es ∧
      (step (run initialState es) (Event.cell i j)).board = (run initialState es).board ∧
      (step (run initialState es) (Event.cell i j)).currentTurn
        = (run initialState es).currentTurn ∧
      (step (run initialState es) (Event.cell i j)).selectedPiece
        = (run initialState es).selectedPiece ∧
      (step (run initialState es) (Event.cell i j)).chainCapturePiece
        = (run initialState es).chainCapturePiece) := by
  generalize hs : run initialState es = s
  have hguard : ¬((findMark s.marks i j).isSome = true ∧ s.selectedPiece.isSome = true) →
      step s (Event.cell i j) = s := by
    intro hg
    simp only [step, clickCell]
    rw [if_neg hg]
    split <;> rfl
  refine ⟨?_, ?_, ?_⟩
  · simp only [step, clickCell]
    split
    · split
      · exact Or.inr rfl
      · exact Or.inl rfl
    · exact Or.inl rfl
  · intro hne
    have hg : (findMark s.marks i j).isSome = true ∧ s.selectedPiece.isSome = true := by
      by_contra hg
      exact hne (hguard hg)
    rcases run_selection es with ⟨hnone, _⟩ | ⟨s0, piece, hlast, hp, hsucc, hsel, hmarks⟩
    · rw [hs] at hnone
      rw [hnone] at hg
      exact absurd hg.2 (by simp)
    · rw [hs] at hsel hmarks
      have hfind := hg.1
      rw [hmarks, selectPiece_marks_of_selected s0 piece hsucc,
        findMark_map_ofMove_isSome] at hfind
      obtain ⟨m, hm, hi, hj⟩ := hfind
      refine ⟨s0, piece, m,
        getLast?_filter_of_getLast? _ _ _ hlast (by simp [selectSucceeds, hsucc]),
        hlast, hp, hsel, hmarks, hm, hi, hj, ?_⟩
      rw [selectPiece_marks_of_selected s0 piece hsucc, ← hi, ← hj,
        findMark_map_ofMove _ (availableMoves_pairwise s0.board piece _) m hm,
        Mark.ofMove_eq s0.board piece m ((availableMoves_sublist _ _).subset hm)]
  · intro hg
    have h := hguard (fun h => hg ⟨h.2, h.1⟩)
    rw [h]
    exact ⟨rfl, rfl, rfl, rfl, rfl⟩

/-- Example for C15 in the example game: after `opening` and a click on piece
42 the last successful `selectPiece` call is the one that click made, entered
in `afterOpening`; piece 42 is selected and `(2, 5)` is marked; a click on
`(2, 5)` is applied, a click on the unmarked cell `(3, 2)` changes nothing. -/
theorem clickCell_needs_mark_witness :
    lastSuccessfulSelect initialState (opening ++ [Event.piece 42])
        = some (afterOpening, ⟨42, .white, 4, 3, 4, 3⟩) ∧
      (selectPiece afterOpening ⟨42, .white, 4, 3, 4, 3⟩).marks
        = [⟨2, 5, .capture, some 3, some 4⟩] ∧
      step selectedMid (Event.cell 2 5) = movePiece selectedMid 2 5 ∧
      step selectedMid (Event.cell 2 5) ≠ selectedMid ∧
      findMark selectedMid.marks 3 2 = none ∧
      step selectedMid (Event.cell 3 2) = selectedMid :=
  have h := clickCell_needs_mark (opening ++ [Event.piece 42]) 3 2
  have hfree : ¬((run initialState (opening ++ [Event.piece 42])).selectedPiece.isSome = true ∧
      (findMark (run initialState (opening ++ [Event.piece 42])).marks 3 2).isSome = true) := by
    have hs : run initialState (opening ++ [Event.piece 42]) = selectedMid := rfl
    rw [hs, selectedMid_eq]
    decide!
  ⟨by decide!, by rw [afterOpening_eq]; decide!, by rw [selectedMid_eq]; decide!,
    by rw [selectedMid_eq]; decide!, by rw [selectedMid_eq]; decide!, (h.2.2 hfree).1⟩

/-! ## Chains -/

theorem canAnyPieceCapture_of_mem (b : List Piece) (p : Piece) (hp : p ∈ b)
    (hcap : ∃ m ∈ getValidMoves b p, m.type = .capture) :
    canAnyPieceCapture b p.color = true := by
  obtain ⟨m, hm, hty⟩ := hcap
  rw [canAnyPieceCapture, List.any_eq_true]
  refine ⟨p, List.mem_filter.2 ⟨hp, by simp⟩, ?_⟩
  rw [List.any_eq_true]
  exact ⟨m, hm, by simp [Move.isCapture, hty]⟩

/-- A piece of the current colour that is on the board, has a capture and is
not barred by a chain is selected by `selectPiece`, with exactly its captures
marked. -/
theorem selectPiece_of_capture (s : State) (piece : Piece)
    (hcol : piece.color = s.currentTurn)
    (hchain : ∀ c, s.chainCapturePiece = some c → piece.id = c.id)
    (hmem : piece ∈ s.board)
    (hcap : ∃ m ∈ getValidMoves s.board piece, m.type = .capture) :
    selectPiece s piece =
      { clearSelection s with
        selectedPiece := some piece.ref
        marks := ((getValidMoves s.board piece).filter Move.isCapture).map Mark.ofMove } := by
  have hmust : canAnyPieceCapture s.board s.currentTurn = true :=
    hcol ▸ canAnyPieceCapture_of_mem s.board piece hmem hcap
  have hpos : ((getValidMoves s.board piece).filter Move.isCapture).length ≠ 0 := by
    have := (hasCapture_iff (getValidMoves s.board piece)).2 hcap
    omega
  have hmarks := marks_of_available s.board piece true
  simp only [availableMoves, if_true] at hmarks
  have hnochain : s.chainCapturePiece.any (fun c => piece.id != c.id) = false := by
    cases hc : s.chainCapturePiece with
    | none => rfl
    | some c => simp [hchain c hc]
  unfold selectPiece
  simp only [clearSelection, hcol, hmust, hnochain, availableMoves, if_true, hmarks]
  simp [hpos]

/-- C11 (chain lock), as amended: (1) when the callback of a capture finds a
further capture for the moved piece, and the moved piece has the colour of
`currentTurn`, it sets `chainCapturePiece` to that piece and leaves it selected
with exactly its capture destinations marked; (2) in every state in which
`chainCapturePiece` is set, `selectPiece` on any other piece is rejected: the
other piece is not selected and `chainCapturePiece`, `currentTurn` and the
board are unchanged; but the call has cleared the selection first, so after it
no piece is selected and no cell is marked. -/
theorem chain_lock (s : State) (c : PieceRef) (hchain : s.chainCapturePiece = some c) :
    (∀ (s2 : State) (t : Timer),
        checkVictory (relocate s2.board t) = none → t.wasCapture = true →
        (∃ m ∈ getValidMoves (relocate s2.board t) t.moved, m.type = .capture) →
        t.movingPiece.color = s2.currentTurn →
        (timerCallback s2 t).chainCapturePiece = some t.movingPiece ∧
        (timerCallback s2 t).selectedPiece = some t.movingPiece ∧
        (timerCallback s2 t).currentTurn = s2.currentTurn ∧
        (timerCallback s2 t).marks =
          ((getValidMoves (relocate s2.board t) t.moved).filter Move.isCapture).map
            Mark.ofMove ∧
        (timerCallback s2 t).marks ≠ [] ∧
        ∀ k ∈ (timerCallback s2 t).marks, k.moveType = .capture) ∧
      ∀ piece : Piece, piece.id ≠ c.id →
        selectPiece s piece = clearSelection s ∧
        (selectPiece s piece).selectedPiece ≠ some piece.ref ∧
        (selectPiece s piece).selectedPiece = none ∧
        (selectPiece s piece).marks = [] ∧
        (selectPiece s piece).chainCapturePiece = some c ∧
        (selectPiece s piece).currentTurn = s.currentTurn ∧
        (selectPiece s piece).board = s.board := by
  constructor
  · intro s2 t hgo hwas hcap hcol
    have hsel := selectPiece_of_capture
      { s2 with board := relocate s2.board t, selectedPiece := none, marks := [],
                chainCapturePiece := some t.movingPiece }
      t.moved hcol (fun c hc => by cases hc; rfl)
      (by simp [relocate]) hcap
    have hcb : timerCallback s2 t =
        selectPiece { s2 with board := relocate s2.board t, selectedPiece := none, marks := [],
                              chainCapturePiece := some t.movingPiece } t.moved := by
      unfold timerCallback
      simp only [clearSelection, hgo]
      rw [if_pos ⟨hwas, (hasCapture_iff _).2 hcap⟩]
    rw [hcb, hsel]
    refine ⟨rfl, rfl, rfl, rfl, ?_, ?_⟩
    · obtain ⟨m, hm, hty⟩ := hcap
      intro hnil
      have : Mark.ofMove m ∈ ((getValidMoves (relocate s2.board t) t.moved).filter
          Move.isCapture).map Mark.ofMove :=
        List.mem_map_of_mem _ (List.mem_filter.2 ⟨hm, by simp [Move.isCapture, hty]⟩)
      simp only [clearSelection] at hnil
      rw [hnil] at this
      exact absurd this (List.not_mem_nil _)
    · intro k hk
      simp only [clearSelection] at hk
      obtain ⟨m, hm, rfl⟩ := List.mem_map.1 hk
      have hty : m.type = .capture := by
        simpa [Move.isCapture] using (List.mem_filter.1 hm).2
      simp [Mark.ofMove, Mark.write, hty]
  · intro piece hne
    have h : selectPiece s piece = clearSelection s := by
      unfold selectPiece
      simp only [clearSelection, hchain]
      split
      · rfl
      · simp [hne]
    rw [h]
    exact ⟨rfl, by simp [clearSelection], rfl, rfl, hchain, rfl, rfl⟩

/-- Witness for C11 in the example game: in `chainHeld` piece 42 is the chain
piece; `selectPiece` on the white piece 46 is rejected and leaves nothing
selected. -/
theorem chain_lock_witness :
    chainHeld.chainCapturePiece = some ⟨42, .white⟩ ∧
      selectPiece chainHeld ⟨46, .white, 5, 6, 5, 6⟩ = clearSelection chainHeld ∧
      (selectPiece chainHeld ⟨46, .white, 5, 6, 5, 6⟩).chainCapturePiece
        = some ⟨42, .white⟩ :=
  have h := (chain_lock chainHeld ⟨42, .white⟩ (by rw [chainHeld_eq]; decide!)).2
    ⟨46, .white, 5, 6, 5, 6⟩ (by decide)
  ⟨(by rw [chainHeld_eq]; decide!), h.1, h.2.2.2.2.1⟩

/-- Counterexample to C11 as stated: `chainHeld` is reached from the initial
board by play; in it `chainCapturePiece` is piece 42, which is selected with
`(0, 5)` marked.  A click on the white piece 46 calls `selectPiece`, which
rejects piece 46; afterwards the chain piece is no longer selected and `(0, 5)`
is no longer marked. -/
theorem chain_lock_counterexample :
    Reachable chainHeld ∧
      chainHeld.chainCapturePiece = some ⟨42, .white⟩ ∧
      chainHeld.selectedPiece = some ⟨42, .white⟩ ∧
      findMark chainHeld.marks 0 5 = some ⟨0, 5, .capture, some 1, some 4⟩ ∧
      getPieceAt chainHeld.board 5 6 = some ⟨46, .white, 5, 6, 5, 6⟩ ∧
      step chainHeld (Event.piece 46) = selectPiece chainHeld ⟨46, .white, 5, 6, 5, 6⟩ ∧
      (step chainHeld (Event.piece 46)).selectedPiece = none ∧
      (step chainHeld (Event.piece 46)).marks = [] ∧
      (step chainHeld (Event.piece 46)).chainCapturePiece = some ⟨42, .white⟩ ∧
      step (step chainHeld (Event.piece 46)) (Event.cell 0 5)
        = step chainHeld (Event.piece 46) := by
  refine ⟨⟨_, rfl⟩, ?_⟩
  rw [chainHeld_eq]; decide!

/-! ## The two steps of a move -/

theorem mem_boardAfterCapture (b : List Piece) (marks : List Mark) (i j : Int) (k : Mark)
    (hmark : findMark marks i j = some k) (p : Piece) (hp : p ∈ b)
    (hnot : capturedPieceOf b k ≠ some p) : p ∈ boardAfterCapture b marks i j := by
  unfold boardAfterCapture
  rw [hmark]
  simp only []
  split
  · cases hq : capturedPieceOf b k with
    | none => exact hp
    | some q =>
      simp only [capturePiece]
      have hpq : p ≠ q := fun h => hnot (by rw [hq, h])
      exact (List.mem_erase_of_ne hpq).2 hp
  · exact hp

theorem timerCallback_timers (s : State) (t : Timer) :
    (timerCallback s t).timers = s.timers := by
  unfold timerCallback
  simp only [clearSelection]
  split
  · rfl
  · split
    · rw [selectPiece_timers]
    · rfl

/-- C17 (move application), as amended: a move is applied in two steps.  At
the click, `movePiece` removes the captured piece, if the move is a capture
and the captured square holds a piece, and registers the rest as a timer:
every other piece, the moving piece included, stays where it is, and
`selectedPiece`, the marks, `currentTurn` and `chainCapturePiece` are
unchanged.  When the timer fires, in whatever state `s2`, the callback does the
rest as one step: the moving piece is on the target cell with `row`/`col` equal
to it, the selection made before is cleared, and victory is shown or the chain
is set up or the turn flips. -/
theorem movePiece_two_steps (s : State) (i j : Int) (sp : PieceRef) (k : Mark)
    (hsel : s.selectedPiece = some sp) (hmark : findMark s.marks i j = some k) :
    ((movePiece s i j).timers = s.timers ++ [⟨sp, i, j, k.moveType == .capture⟩] ∧
      (∀ p ∈ s.board, capturedPieceOf s.board k ≠ some p → p ∈ (movePiece s i j).board) ∧
      (∀ p ∈ (movePiece s i j).board, p ∈ s.board) ∧
      (k.moveType = .capture → ∀ q, capturedPieceOf s.board k = some q →
        (movePiece s i j).board = s.board.erase q) ∧
      (movePiece s i j).selectedPiece = some sp ∧
      (movePiece s i j).marks = s.marks ∧
      (movePiece s i j).currentTurn = s.currentTurn ∧
      (movePiece s i j).chainCapturePiece = s.chainCapturePiece) ∧
    ∀ s2 : State,
      (timerCallback s2 ⟨sp, i, j, k.moveType == .capture⟩).board
          = s2.board.eraseP (fun p => p.id == sp.id) ++ [⟨sp.id, sp.color, i, j, i, j⟩] ∧
      (timerCallback s2 ⟨sp, i, j, k.moveType == .capture⟩).timers = s2.timers ∧
      ((∃ w, checkVictory (timerCallback s2 ⟨sp, i, j, k.moveType == .capture⟩).board = some w ∧
          (timerCallback s2 ⟨sp, i, j, k.moveType == .capture⟩).selectedPiece = none ∧
          (timerCallback s2 ⟨sp, i, j, k.moveType == .capture⟩).marks = [] ∧
          (timerCallback s2 ⟨sp, i, j, k.moveType == .capture⟩).overlays = s2.overlays ++ [w] ∧
          (timerCallback s2 ⟨sp, i, j, k.moveType == .capture⟩).currentTurn = s2.currentTurn ∧
          (timerCallback s2 ⟨sp, i, j, k.moveType == .capture⟩).chainCapturePiece
            = s2.chainCapturePiece) ∨
        ((timerCallback s2 ⟨sp, i, j, k.moveType == .capture⟩).chainCapturePiece = some sp ∧
          (timerCallback s2 ⟨sp, i, j, k.moveType == .capture⟩).currentTurn = s2.currentTurn ∧
          ((timerCallback s2 ⟨sp, i, j, k.moveType == .capture⟩).selectedPiece = none ∨
            (timerCallback s2 ⟨sp, i, j, k.moveType == .capture⟩).selectedPiece = some sp) ∧
          (timerCallback s2 ⟨sp, i, j, k.moveType == .capture⟩).overlays = s2.overlays) ∨
        ((timerCallback s2 ⟨sp, i, j, k.moveType == .capture⟩).chainCapturePiece = none ∧
          (timerCallback s2 ⟨sp, i, j, k.moveType == .capture⟩).currentTurn
            = s2.currentTurn.other ∧
          (timerCallback s2 ⟨sp, i, j, k.moveType == .capture⟩).selectedPiece = none ∧
          (timerCallback s2 ⟨sp, i, j, k.moveType == .capture⟩).marks = [] ∧
          (timerCallback s2 ⟨sp, i, j, k.moveType == .capture⟩).overlays = s2.overlays)) := by
  constructor
  · obtain ⟨hm, hs, ht, hc, _⟩ := movePiece_marks s i j
    refine ⟨movePiece_timers s i j sp k hsel hmark, ?_, ?_, ?_, hs.trans hsel, hm, ht, hc⟩
    · intro p hp hnot
      rw [movePiece_board s i j sp hsel]
      exact mem_boardAfterCapture s.board s.marks i j k hmark p hp hnot
    · intro p hp
      rw [movePiece_board s i j sp hsel] at hp
      exact (boardAfterCapture_sublist s.board s.marks i j).subset hp
    · intro hty q hq
      rw [movePiece_board s i j sp hsel]
      simp [boardAfterCapture, hmark, hty, hq, capturePiece]
  · intro s2
    generalize ht : (⟨sp, i, j, k.moveType == .capture⟩ : Timer) = t
    have hmp : t.movingPiece = sp := by subst ht; rfl
    have hrel : relocate s2.board t
        = s2.board.eraseP (fun p => p.id == sp.id) ++ [⟨sp.id, sp.color, i, j, i, j⟩] := by
      subst ht; rfl
    refine ⟨by rw [timerCallback_board, hrel], timerCallback_timers s2 t, ?_⟩
    rw [timerCallback_board]
    unfold timerCallback
    simp only [clearSelection]
    cases hv : checkVictory (relocate s2.board t) with
    | some w => exact Or.inl ⟨w, rfl, rfl, rfl, rfl, rfl, rfl⟩
    | none =>
      simp only []
      split
      · refine Or.inr (Or.inl ⟨?_, ?_, ?_, ?_⟩)
        · rw [selectPiece_chainCapturePiece, hmp]
        · rw [selectPiece_currentTurn]
        · rcases selectPiece_cases
            { s2 with board := relocate s2.board t, selectedPiece := none, marks := [],
                      chainCapturePiece := some t.movingPiece } t.moved with h | h
          · exact Or.inl (by rw [h]; rfl)
          · exact Or.inr (by rw [h, ← hmp]; rfl)
        · rw [selectPiece_overlays]
      · exact Or.inr (Or.inr ⟨rfl, rfl, rfl, rfl, rfl⟩)

/-- Witness for C17 in the example game: in `selectedMid` piece 42 is selected
and `(2, 5)` is marked; after the click on `(2, 5)` piece 42 is still selected
and still on `(4, 3)`, and the relocation is pending. -/
theorem movePiece_two_steps_witness :
    selectedMid.selectedPiece = some ⟨42, .white⟩ ∧
      findMark selectedMid.marks 2 5 = some ⟨2, 5, .capture, some 3, some 4⟩ ∧
      (movePiece selectedMid 2 5).selectedPiece = some ⟨42, .white⟩ ∧
      (⟨42, .white, 4, 3, 4, 3⟩ : Piece) ∈ (movePiece selectedMid 2 5).board ∧
      (movePiece selectedMid 2 5).timers
        = selectedMid.timers ++ [⟨⟨42, .white⟩, 2, 5, true⟩] :=
  have h := (movePiece_two_steps selectedMid 2 5 ⟨42, .white⟩
    ⟨2, 5, .capture, some 3, some 4⟩ (by rw [selectedMid_eq]; decide!)
      (by rw [selectedMid_eq]; decide!)).1
  ⟨(by rw [selectedMid_eq]; decide!), (by rw [selectedMid_eq]; decide!),
    h.2.2.2.2.1, h.2.1 _ (by rw [selectedMid_eq]; decide!) (by rw [selectedMid_eq]; decide!), h.1⟩

/-- Counterexample to C17 as stated: `inFlightMid` is reached from the initial
board by play (piece 42 selected, its capture destination `(2, 5)` clicked
once).  In it the captured piece is removed already (`(3, 4)` is empty, black
has 11 pieces), the moving piece is still on its origin square `(4, 3)`, it is
still selected, `(2, 5)` is still marked, and a second click on `(2, 5)` is
accepted and registers a second relocation. -/
theorem movePiece_two_steps_counterexample :
    Reachable inFlightMid ∧
      getPieceAt inFlightMid.board 3 4 = none ∧
      countColor inFlightMid.board .black = 11 ∧
      getPieceAt inFlightMid.board 4 3 = some ⟨42, .white, 4, 3, 4, 3⟩ ∧
      getPieceAt inFlightMid.board 2 5 = none ∧
      inFlightMid.selectedPiece = some ⟨42, .white⟩ ∧
      findMark inFlightMid.marks 2 5 = some ⟨2, 5, .capture, some 3, some 4⟩ ∧
      inFlightMid.timers = [⟨⟨42, .white⟩, 2, 5, true⟩] ∧
      step inFlightMid (Event.cell 2 5) = movePiece inFlightMid 2 5 ∧
      (step inFlightMid (Event.cell 2 5)).timers
        = [⟨⟨42, .white⟩, 2, 5, true⟩, ⟨⟨42, .white⟩, 2, 5, true⟩] := by
  refine ⟨⟨_, rfl⟩, ?_⟩
  rw [inFlightMid_eq]; decide!

/-! ## Chain progress -/

theorem selectPiece_selected_color (s : State) (piece : Piece) (sp : PieceRef)
    (h : (selectPiece s piece).selectedPiece = some sp) : sp.color = s.currentTurn := by
  unfold selectPiece at h
  simp only [clearSelection] at h
  split at h
  · cases h
  · rename_i hcol
    split at h
    · cases h
    · split at h
      · cases h
      · cases h
        exact not_not.1 hcol

theorem selectPiece_chainReady (s : State) (piece : Piece) (h : ChainReady s) :
    ChainReady (selectPiece s piece) := by
  refine ⟨?_, ?_⟩
  · intro sp hsp
    rw [selectPiece_currentTurn]
    exact selectPiece_selected_color s piece sp hsp
  · rw [selectPiece_chainCapturePiece, selectPiece_board, selectPiece_currentTurn]
    exact h.2

theorem timerCallback_chainReady (s : State) (t : Timer)
    (hcol : t.movingPiece.color = s.currentTurn) : ChainReady (timerCallback s t) := by
  unfold timerCallback
  simp only [clearSelection]
  cases hv : checkVictory (relocate s.board t) with
  | some w =>
    refine ⟨fun sp hsp => (by cases hsp), ?_⟩
    intro c _ hgo
    simp only [] at hgo
    rw [hv] at hgo
    cases hgo
  | none =>
    simp only []
    split
    · rename_i hchain
      refine ⟨?_, ?_⟩
      · intro sp hsp
        rw [selectPiece_currentTurn]
        exact selectPiece_selected_color _ _ sp hsp
      · rw [selectPiece_chainCapturePiece, selectPiece_board, selectPiece_currentTurn]
        intro c hc _
        cases hc
        exact ⟨t.moved, by simp [relocate], rfl, hcol, (hasCapture_iff _).1 hchain.2⟩
    · exact ⟨fun sp hsp => (by cases hsp), fun c hc => (by cases hc)⟩

theorem act_chainReady (s : State) (a : Action) (hidle : s.timers = [])
    (h : ChainReady s) : ChainReady (act s a) := by
  have hrun : runTimer s = s := runTimer_nil s hidle
  cases a with
  | select id =>
    simp only [act, step]
    split
    · simp only [clickPiece]
      split
      · exact selectPiece_chainReady s _ h
      · exact h
    · exact h
  | move i j =>
    simp only [act, step, clickCell]
    split
    · split
      · rename_i hguard
        obtain ⟨sp, hsp⟩ := Option.isSome_iff_exists.1 hguard.2
        rw [runTimer_movePiece s i j sp hidle hsp]
        exact timerCallback_chainReady _ _ (h.1 sp hsp)
      · rw [hrun]; exact h
    · rw [hrun]; exact h

theorem play_chainReady (as : List Action) :
    ∀ s : State, Settled s → ChainReady s → Settled (play s as) ∧ ChainReady (play s as) := by
  induction as with
  | nil => exact fun s h1 h2 => ⟨h1, h2⟩
  | cons a rest ih =>
    exact fun s h1 h2 => ih (act s a) (act_settled s a h1) (act_chainReady s a h1.1 h2)

theorem find_by_id (b : List Piece) (p : Piece) (hids : DistinctIds b) (hp : p ∈ b) :
    b.find? (fun q => q.id == p.id) = some p := by
  induction b with
  | nil => cases hp
  | cons a l ih =>
    rw [DistinctIds, List.map_cons, List.nodup_cons] at hids
    rw [List.find?_cons]
    by_cases hap : a = p
    · subst hap
      simp
    · have hpl : p ∈ l := by
        rcases List.mem_cons.1 hp with h | h
        · exact absurd h.symm hap
        · exact h
      have hid : a.id ≠ p.id := fun h => hids.1 (h ▸ List.mem_map_of_mem Piece.id hpl)
      have hne : (a.id == p.id) = false := by simpa using hid
      rw [hne]
      exact ih hids.2 hpl

/-- C19 (chain progress), as amended: in every state reached from the initial
board by play in which each move completes before the next click, if
`chainCapturePiece` is set and both colours still have a piece, then the chain
piece is on the board, has the colour of `currentTurn` and has a capture in
`getValidMoves`; a click on it calls `selectPiece`, which selects it and marks
exactly its capture destinations, of which there is at least one. -/
theorem chain_progress (as : List Action) (c : PieceRef)
    (hchain : (play initialState as).chainCapturePiece = some c)
    (hgo : checkVictory (play initialState as).board = none) :
    ∃ p ∈ (play initialState as).board,
      p.ref = c ∧ p.color = (play initialState as).currentTurn ∧
      (∃ m ∈ getValidMoves (play initialState as).board p, m.type = .capture) ∧
      step (play initialState as) (Event.piece c.id) = selectPiece (play initialState as) p ∧
      (selectPiece (play initialState as) p).selectedPiece = some c ∧
      (selectPiece (play initialState as) p).marks =
        ((getValidMoves (play initialState as).board p).filter Move.isCapture).map
          Mark.ofMove ∧
      (selectPiece (play initialState as) p).marks ≠ [] ∧
      ∀ k ∈ (selectPiece (play initialState as) p).marks, k.moveType = .capture := by
  have hinit : Settled initialState :=
    ⟨rfl, by decide, by decide, fun k hk => absurd hk (List.not_mem_nil k)⟩
  have hinit2 : ChainReady initialState :=
    ⟨fun sp hsp => (by cases hsp), fun c hc => (by cases hc)⟩
  obtain ⟨hset, hready⟩ := play_chainReady as initialState hinit hinit2
  generalize play initialState as = s at hchain hgo hset hready ⊢
  obtain ⟨p, hp, href, hcol, hcap⟩ := hready.2 c hchain hgo
  have hsel := selectPiece_of_capture s p hcol
    (fun c2 hc2 => by rw [hchain] at hc2; cases hc2; rw [← href]; rfl) hp hcap
  refine ⟨p, hp, href, hcol, hcap, ?_, ?_, ?_, ?_, ?_⟩
  · have hid : c.id = p.id := by rw [← href]; rfl
    simp only [step]
    rw [hid, find_by_id s.board p hset.2.1 hp]
    simp only [clickPiece]
    rw [if_pos hcol]
  · rw [hsel, ← href]
  · rw [hsel]
  · obtain ⟨m, hm, hty⟩ := hcap
    rw [hsel]
    intro hnil
    have : Mark.ofMove m ∈ ((getValidMoves s.board p).filter Move.isCapture).map Mark.ofMove :=
      List.mem_map_of_mem _ (List.mem_filter.2 ⟨hm, by simp [Move.isCapture, hty]⟩)
    simp only [clearSelection] at hnil
    rw [hnil] at this
    exact absurd this (List.not_mem_nil _)
  · rw [hsel]
    intro k hk
    simp only [clearSelection] at hk
    obtain ⟨m, hm, rfl⟩ := List.mem_map.1 hk
    have hty : m.type = .capture := by
      simpa [Move.isCapture] using (List.mem_filter.1 hm).2
    simp [Mark.ofMove, Mark.write, hty]

/-- Witness for C19 in the example game: `chainActions` lead to `chainHeld`,
where piece 42 is the chain piece and both colours have pieces; piece 42 is on
`(2, 3)` and selecting it marks its one capture destination, `(0, 5)`. -/
theorem chain_progress_witness :
    play initialState chainActions = chainHeld ∧
      (play initialState chainActions).chainCapturePiece = some ⟨42, .white⟩ ∧
      checkVictory (play initialState chainActions).board = none ∧
      (selectPiece (play initialState chainActions) ⟨42, .white, 2, 3, 2, 3⟩).marks
        = [⟨0, 5, .capture, some 1, some 4⟩] ∧
      (step (play initialState chainActions) (Event.piece 42)).selectedPiece
        = some ⟨42, .white⟩ := by
  obtain ⟨p, _, _, _, _, hstep, hsel, _, _, _⟩ :=
    chain_progress chainActions ⟨42, .white⟩
      (by rw [play_chainActions, chainHeld_eq]; decide!)
      (by rw [play_chainActions, chainHeld_eq]; decide!)
  exact ⟨play_chainActions,
    (by rw [play_chainActions, chainHeld_eq]; decide!),
    (by rw [play_chainActions, chainHeld_eq]; decide!),
    (by rw [play_chainActions, chainHeld_eq]; decide!),
    (congrArg State.selectedPiece hstep).trans hsel⟩

/-- Counterexample to C19 as stated: `chainInFlight` is reached from the
initial board by play (the chain piece 42 has been sent on its second jump,
which has not completed yet).  In it `chainCapturePiece` is piece 42, both
colours have pieces, piece 42 is on `(2, 3)` and has no capture in
`getValidMoves`; a click on it selects it with the two steps to `(1, 2)` and
`(1, 4)` marked, and a click on `(1, 2)` is then accepted. -/
theorem chain_progress_counterexample :
    Reachable chainInFlight ∧
      chainInFlight.chainCapturePiece = some ⟨42, .white⟩ ∧
      chainInFlight.currentTurn = .white ∧
      checkVictory chainInFlight.board = none ∧
      getPieceAt chainInFlight.board 2 3 = some ⟨42, .white, 2, 3, 2, 3⟩ ∧
      getValidMoves chainInFlight.board ⟨42, .white, 2, 3, 2, 3⟩
        = [⟨1, 2, .move, none, none⟩, ⟨1, 4, .move, none, none⟩] ∧
      canAnyPieceCapture chainInFlight.board .white = false ∧
      (step chainInFlight (Event.piece 42)).selectedPiece = some ⟨42, .white⟩ ∧
      (step chainInFlight (Event.piece 42)).marks
        = [⟨1, 2, .move, none, none⟩, ⟨1, 4, .move, none, none⟩] ∧
      step (step chainInFlight (Event.piece 42)) (Event.cell 1 2)
        = movePiece (step chainInFlight (Event.piece 42)) 1 2 := by
  refine ⟨⟨_, rfl⟩, ?_⟩
  rw [chainInFlight_eq]; decide!

end Checkers
